import Mathlib

/-!
Verification of the invoice-dashboard backend (Express + Mongoose + GridFS).

The file embeds, as executable Lean definitions, the parts of the code that the
claims are about:

* the AI-output normalizer `parseAIResponse` of `GeminiAIService`/`GroqAIService`
  (both classes contain the identical method), over a small model of JavaScript
  runtime values and of `JSON.parse`;
* the invoice CRUD routes (`POST/PUT/DELETE /api/invoices`, `GET /api/invoices`
  with search and pagination) over a list-of-documents model of the MongoDB
  collection, with the `fileId` and `_id` unique indexes modelled as the
  duplicate-key rejections the routes catch;
* the upload middleware `fileFilter`/`handleUploadError`;
* the GridFS `ObjectId` derivation: drop the dashes of `fileId`, take the first
  24 characters, pad with `'0'` to length 24.

Modelling conventions:
* JavaScript numbers are modelled as `Rat`; the claims below only ever inspect
  truthiness of numbers, where the float/rational difference is immaterial
  (denormal underflow aside).
* The backend is TypeScript compiled with `alwaysStrict` (the compiler's
  standard `strict` preset), so assigning a property to a primitive throws a
  `TypeError`; the model's `setProp` reflects that.
* `Math.floor(1000 + Math.random() * 9000)` is modelled by a parameter
  `rand : Nat` (its value lies in `[1000, 9999]`), and
  `new Date().toISOString().split('T')[0]` by a parameter `today : String`
  (always a valid `YYYY-MM-DD` date).
-/

namespace PdfDashboard

/-- JavaScript runtime values as they occur in the normalizer: everything
`JSON.parse` can produce, plus `undefined` (the result of reading an absent
property). Arrays carry, besides their elements, a list of named properties,
because the normalizer may assign named fields onto an array value. Object and
array properties are kept in insertion order, as JavaScript does. -/
inductive JsValue where
  | undefined
  | jsNull
  | bool (b : Bool)
  | num (q : Rat)
  | str (s : String)
  | arr (elems : List JsValue) (props : List (String × JsValue))
  | obj (props : List (String × JsValue))

/-- JavaScript truthiness: `undefined`, `null`, `false`, `0`, `NaN` and `""` are
falsy, everything else (including `[]` and arbitrary objects) is truthy. -/
def truthy : JsValue → Bool
  | .undefined => false
  | .jsNull => false
  | .bool b => b
  | .num q => !(q == 0)
  | .str s => !(s == "")
  | .arr _ _ => true
  | .obj _ => true

/-- The `x === null` test. -/
def isNull : JsValue → Bool
  | .jsNull => true
  | _ => false

/-- `Array.isArray`. -/
def isArray : JsValue → Bool
  | .arr _ _ => true
  | _ => false

/-- Whether a value is a plain object (a "mapping" in the spec's wording). -/
def isObj : JsValue → Bool
  | .obj _ => true
  | _ => false

/-- Whether a value can carry own named properties (object or array). -/
def isObjOrArr : JsValue → Bool
  | .obj _ => true
  | .arr _ _ => true
  | _ => false

/-- Ordered-association-list lookup; an absent key reads as `undefined`. -/
def lookupProp : List (String × JsValue) → String → JsValue
  | [], _ => .undefined
  | (g, w) :: rest, f => if g = f then w else lookupProp rest f

/-- Ordered-association-list update: an existing key keeps its position (as
JavaScript property assignment does), a new key is appended. -/
def updateProp : List (String × JsValue) → String → JsValue → List (String × JsValue)
  | [], f, v => [(f, v)]
  | (g, w) :: rest, f, v =>
      if g = f then (f, v) :: rest else (g, w) :: updateProp rest f v

/-- Errors thrown inside the normalizer's `try` block. -/
inductive JsErr where
  | syntaxError
  | typeError

/-- Property read `x.f`. Reading from `null`/`undefined` throws a `TypeError`;
reading any of the normalizer's field names from another primitive yields
`undefined` (none of the accessed names is a `String`/`Number` prototype
member). -/
def getProp : JsValue → String → Except JsErr JsValue
  | .undefined, _ => .error .typeError
  | .jsNull, _ => .error .typeError
  | .bool _, _ => .ok .undefined
  | .num _, _ => .ok .undefined
  | .str _, _ => .ok .undefined
  | .arr _ props, f => .ok (lookupProp props f)
  | .obj props, f => .ok (lookupProp props f)

/-- Property write `x.f = v` under strict mode: assignment to a property of a
primitive (or of `null`/`undefined`) throws a `TypeError`. -/
def setProp : JsValue → String → JsValue → Except JsErr JsValue
  | .arr es props, f, v => .ok (.arr es (updateProp props f v))
  | .obj props, f, v => .ok (.obj (updateProp props f v))
  | _, _, _ => .error .typeError

/-- Total property read used in theorem statements: like `getProp` but reading
from a primitive (or `null`/`undefined`) gives `undefined` instead of an error. -/
def jsGetD : JsValue → String → JsValue
  | .arr _ props, f => lookupProp props f
  | .obj props, f => lookupProp props f
  | _, _ => .undefined

/-- Two-step total read `x.f.g`, used in theorem statements. -/
def getD2 (v : JsValue) (f g : String) : JsValue :=
  jsGetD (jsGetD v f) g

/-! Model of `JSON.parse` (recursive-descent over the JSON grammar; `none`
models a thrown `SyntaxError`). Duplicate object keys keep the first key's
position with the last value, as in JavaScript. Escaped `\uXXXX` units are
decoded individually (an isolated surrogate half, unrepresentable as a Lean
`Char`, degrades to the null character; no claim inspects such strings). -/

/-- The insignificant whitespace of the JSON grammar. -/
def jsonWs (c : Char) : Bool :=
  c == ' ' || c == '\t' || c == '\n' || c == '\r'

def skipWs : List Char → List Char
  | [] => []
  | input@(c :: more) => if jsonWs c then skipWs more else input

def isDigitChar (c : Char) : Bool := '0' ≤ c && c ≤ '9'

def digitVal (c : Char) : Nat := c.toNat - '0'.toNat

/-- The value of a hexadecimal digit (by code point: `0`-`9`, `a`-`f`,
`A`-`F`). -/
def hexVal (c : Char) : Option Nat :=
  let n := c.toNat
  if 48 ≤ n && n ≤ 57 then some (n - 48)
  else if 97 ≤ n && n ≤ 102 then some (n - 87)
  else if 65 ≤ n && n ≤ 70 then some (n - 55)
  else none

/-- Consume a maximal run of decimal digits, returning them and the rest. -/
def takeDigits : List Char → List Char × List Char
  | [] => ([], [])
  | d :: more =>
      if isDigitChar d then
        match takeDigits more with
        | (ds, tail) => (d :: ds, tail)
      else ([], d :: more)

def digitsToNatAux (acc : Nat) : List Char → Nat
  | [] => acc
  | d :: more => digitsToNatAux (acc * 10 + digitVal d) more

def digitsToNat (ds : List Char) : Nat :=
  digitsToNatAux 0 ds

/-- Parse a JSON number into an exact rational. -/
def parseJNumber (cs : List Char) : Option (Rat × List Char) :=
  let signSplit : Bool × List Char := match cs with
    | '-' :: afterSign => (true, afterSign)
    | _ => (false, cs)
  let neg := signSplit.1
  let cs₁ := signSplit.2
  match cs₁ with
  | c :: _ =>
    if !(isDigitChar c) then none
    else
      let (intDs, cs₂) := takeDigits cs₁
      -- JSON forbids leading zeros: "0" is fine, "0d" with a digit d is not.
      if intDs.length > 1 && intDs.headD '0' == '0' then none
      else
        let (fracDs, cs₃) := match cs₂ with
          | '.' :: rest =>
              let (ds, r) := takeDigits rest
              (ds, r)
          | _ => ([], cs₂)
        -- a '.' must be followed by at least one digit
        if (match cs₂ with | '.' :: _ => fracDs.isEmpty | _ => false) then none
        else
          let expPart : Option (Bool × List Char × List Char) := match cs₃ with
            | 'e' :: rest | 'E' :: rest =>
                let (esign, rest₁) := match rest with
                  | '+' :: r => (false, r)
                  | '-' :: r => (true, r)
                  | _ => (false, rest)
                let (eds, r) := takeDigits rest₁
                if eds.isEmpty then none else some (esign, eds, r)
            | _ => some (false, [], cs₃)
          match expPart with
          | none => none
          | some (esign, eds, cs₄) =>
            let mantissa : Int := Int.ofNat (digitsToNat (intDs ++ fracDs))
            let mantissa := if neg then -mantissa else mantissa
            let eraw : Nat := digitsToNat eds
            let scaleDown : Nat := fracDs.length + (if esign then eraw else 0)
            let scaleUp : Nat := if esign then 0 else eraw
            let q : Rat := (mantissa : Rat) * (10 : Rat) ^ scaleUp / (10 : Rat) ^ scaleDown
            some (q, cs₄)
  | [] => none

/-- Parse the body of a JSON string (the opening quote already consumed),
returning the decoded characters and the rest of the input. -/
def parseJStringBody : List Char → Option (List Char × List Char)
  | '"' :: rest => some ([], rest)
  | '\\' :: 'u' :: h₁ :: h₂ :: h₃ :: h₄ :: rest =>
      (match hexVal h₁, hexVal h₂, hexVal h₃, hexVal h₄ with
       | some a, some b, some c, some d =>
           let code := ((a * 16 + b) * 16 + c) * 16 + d
           (match parseJStringBody rest with
            | some (cnt, r) => some (Char.ofNat code :: cnt, r)
            | none => none)
       | _, _, _, _ => none)
  | '\\' :: e :: rest =>
      (match (match e with
              | '"' => some '"'
              | '\\' => some '\\'
              | '/' => some '/'
              | 'b' => some '\x08'
              | 'f' => some '\x0c'
              | 'n' => some '\n'
              | 'r' => some '\r'
              | 't' => some '\t'
              | _ => none : Option Char) with
       | none => none
       | some c =>
         match parseJStringBody rest with
         | some (cnt, r) => some (c :: cnt, r)
         | none => none)
  | c :: rest =>
      if c.toNat < 0x20 then none
      else
        match parseJStringBody rest with
        | some (cnt, r) => some (c :: cnt, r)
        | none => none
  | [] => none

mutual

/-- Parse one JSON value (fuel-bounded; the top entry point supplies ample
fuel, and no theorem depends on fuel sufficiency for non-concrete inputs). -/
def parseJValue : Nat → List Char → Option (JsValue × List Char)
  | 0, _ => none
  | fuel + 1, cs =>
    match skipWs cs with
    | 'n' :: 'u' :: 'l' :: 'l' :: rest => some (.jsNull, rest)
    | 't' :: 'r' :: 'u' :: 'e' :: rest => some (.bool true, rest)
    | 'f' :: 'a' :: 'l' :: 's' :: 'e' :: rest => some (.bool false, rest)
    | '"' :: rest =>
        (parseJStringBody rest).map (fun p => (.str (String.mk p.1), p.2))
    | '[' :: rest =>
        (match skipWs rest with
         | ']' :: rest₁ => some (.arr [] [], rest₁)
         | cs₁ => parseJElems fuel cs₁ [])
    | '\x7b' :: rest =>
        (match skipWs rest with
         | '\x7d' :: rest₁ => some (.obj [], rest₁)
         | cs₁ => parseJMembers fuel cs₁ [])
    | cs' => (parseJNumber cs').map (fun p => (.num p.1, p.2))

/-- Parse the remaining elements of a non-empty array literal. -/
def parseJElems : Nat → List Char → List JsValue → Option (JsValue × List Char)
  | 0, _, _ => none
  | fuel + 1, cs, acc =>
    match parseJValue fuel cs with
    | none => none
    | some (v, rest) =>
      match skipWs rest with
      | ',' :: rest₁ => parseJElems fuel rest₁ (acc ++ [v])
      | ']' :: rest₁ => some (.arr (acc ++ [v]) [], rest₁)
      | _ => none

/-- Parse the remaining members of a non-empty object literal. -/
def parseJMembers : Nat → List Char → List (String × JsValue) →
    Option (JsValue × List Char)
  | 0, _, _ => none
  | fuel + 1, cs, acc =>
    match skipWs cs with
    | '"' :: rest =>
      (match parseJStringBody rest with
       | none => none
       | some (key, rest₁) =>
         match skipWs rest₁ with
         | ':' :: rest₂ =>
           (match parseJValue fuel rest₂ with
            | none => none
            | some (v, rest₃) =>
              let acc := updateProp acc (String.mk key) v
              match skipWs rest₃ with
              | ',' :: rest₄ => parseJMembers fuel rest₄ acc
              | '\x7d' :: rest₄ => some (.obj acc, rest₄)
              | _ => none)
         | _ => none)
    | _ => none

end

/-- Model of `JSON.parse`: `none` is a thrown `SyntaxError`. -/
def jsonParse (s : String) : Option JsValue :=
  match parseJValue (s.length + 2) s.toList with
  | some (v, rest) => if (skipWs rest).isEmpty then some v else none
  | none => none

/-! Model of the response cleaning
`response.replace(re, '').trim()` where `re` matches, globally, either
three backticks + `json` + an optional newline, or an optional newline +
three backticks. -/

/-- One left-to-right pass of the global fence-removing replace: at each
position the first alternative (backticks+`json`, greedy optional newline) is
tried before the second (optional newline + backticks), exactly as the
JavaScript regex engine does. -/
def stripFences : List Char → List Char
  | '`' :: '`' :: '`' :: 'j' :: 's' :: 'o' :: 'n' :: '\n' :: rest => stripFences rest
  | '`' :: '`' :: '`' :: 'j' :: 's' :: 'o' :: 'n' :: rest => stripFences rest
  | '\n' :: '`' :: '`' :: '`' :: rest => stripFences rest
  | '`' :: '`' :: '`' :: rest => stripFences rest
  | c :: rest => c :: stripFences rest
  | [] => []

/-- The whitespace removed by `String.prototype.trim`. -/
def jsWhitespace (c : Char) : Bool :=
  c == ' ' || c == '\t' || c == '\n' || c == '\r' || c == '\x0b' ||
  c == '\x0c' || c == '\xa0' || c == '\ufeff'

/-- `s.trim()`. -/
def jsTrim (cs : List Char) : List Char :=
  ((cs.dropWhile jsWhitespace).reverse.dropWhile jsWhitespace).reverse

/-- The `cleanResponse` computed by `parseAIResponse`. -/
def cleanAI (response : String) : String :=
  String.mk (jsTrim (stripFences response.toList))

/-- `s.trim()` as a `String` operation. -/
def jsTrimStr (s : String) : String :=
  String.mk (jsTrim s.toList)

/-! The normalizer `parseAIResponse` of `GeminiAIService` (the identical
method also appears in `GroqAIService`). -/

/-- The generated invoice-number placeholder: `DOC-` followed by the value of
`Math.floor(1000 + Math.random() * 9000)` (which lies in `[1000, 9999]`). -/
def docNumber (rand : Nat) : String :=
  "DOC-" ++ toString rand

/-- The `!x || x === null` test guarding the `vendor.name`, `invoice.number`
and `invoice.date` defaults (the `=== null` disjunct is subsumed by falsiness,
as in the source). -/
def falsyOrNull (v : JsValue) : Bool :=
  !truthy v || isNull v

/-- The safe default structure returned by the normalizer's `catch` branch,
with the fields it explicitly sets to `undefined` represented as such. -/
def defaultShell (today : String) (rand : Nat) : JsValue :=
  .obj
    [("vendor", .obj
        [("name", .str "Unknown Vendor"),
         ("address", .undefined),
         ("taxId", .undefined)]),
     ("invoice", .obj
        [("number", .str (docNumber rand)),
         ("date", .str today),
         ("currency", .str "USD"),
         ("subtotal", .undefined),
         ("taxPercent", .undefined),
         ("total", .undefined),
         ("poNumber", .undefined),
         ("poDate", .undefined),
         ("lineItems", .arr [] [])])]

/-- One structure check of the normalizer:
`if (!parsed.f) then parsed.f = an empty object`. -/
def ensureObjField (parsed : JsValue) (f : String) : Except JsErr JsValue :=
  match getProp parsed f with
  | .error e => .error e
  | .ok v => if !truthy v then setProp parsed f (.obj []) else .ok parsed

/-- One defaulting step of the normalizer:
`if (cond parsed.sec.fld) then parsed.sec.fld = dflt`. The source mutates the
object referenced by `parsed.sec` in place; since `JSON.parse` output has no
internal sharing, the mutation is modelled by writing the changed sub-object
back into its parent. -/
def defaultFieldIf (cond : JsValue → Bool) (parsed : JsValue)
    (sec fld : String) (dflt : JsValue) : Except JsErr JsValue :=
  match getProp parsed sec with
  | .error e => .error e
  | .ok s =>
    match getProp s fld with
    | .error e => .error e
    | .ok cur =>
      if cond cur then
        match getProp parsed sec with
        | .error e => .error e
        | .ok s₁ =>
          match setProp s₁ fld dflt with
          | .error e => .error e
          | .ok s' => setProp parsed sec s'
      else .ok parsed

/-- The body of the normalizer's `try` block: clean, `JSON.parse`, the two
structure checks, then the five defaulting steps, in source order. -/
def parseAIResponseTry (today : String) (rand : Nat) (response : String) :
    Except JsErr JsValue := do
  let cleanResponse := cleanAI response
  let parsed ← match jsonParse cleanResponse with
    | some v => Except.ok v
    | none => Except.error JsErr.syntaxError
  let parsed ← ensureObjField parsed "vendor"
  let parsed ← ensureObjField parsed "invoice"
  let parsed ← defaultFieldIf falsyOrNull parsed "vendor" "name"
      (.str "Unknown Vendor")
  let parsed ← defaultFieldIf falsyOrNull parsed "invoice" "number"
      (.str (docNumber rand))
  let parsed ← defaultFieldIf falsyOrNull parsed "invoice" "date"
      (.str today)
  let parsed ← defaultFieldIf (fun v => !truthy v) parsed "invoice" "currency"
      (.str "USD")
  let parsed ← defaultFieldIf (fun v => !isArray v) parsed "invoice" "lineItems"
      (.arr [] [])
  pure parsed

/-- `parseAIResponse`: the `try` body with the catch-all fallback to the safe
default structure. -/
def parseAIResponse (today : String) (rand : Nat) (response : String) :
    JsValue :=
  match parseAIResponseTry today rand response with
  | .ok v => v
  | .error _ => defaultShell today rand

mutual

/-- JSON-serialization view of a value: object properties whose value is
`undefined` are dropped (as `JSON.stringify` drops them) and `undefined`
array elements read as `null`. Two values with the same image under this map
serialize identically. -/
def stripUndefined : JsValue → JsValue
  | .obj props => .obj (stripUndefinedProps props)
  | .arr elems props => .arr (stripUndefinedElems elems) (stripUndefinedProps props)
  | v => v

def stripUndefinedElems : List JsValue → List JsValue
  | [] => []
  | v :: rest =>
      (match v with
       | .undefined => .jsNull
       | w => stripUndefined w) :: stripUndefinedElems rest

def stripUndefinedProps : List (String × JsValue) → List (String × JsValue)
  | [] => []
  | (f, v) :: rest =>
      match v with
      | .undefined => stripUndefinedProps rest
      | w => (f, stripUndefined w) :: stripUndefinedProps rest

end

/-- Valid `YYYY-MM-DD` form: ten characters, digits in the year, month and day
positions, dashes in between, month in `[1, 12]` and day in `[1, 31]`. -/
def isValidDate (s : String) : Bool :=
  match s.toList with
  | [y₁, y₂, y₃, y₄, d₁, m₁, m₂, d₂, a₁, a₂] =>
      isDigitChar y₁ && isDigitChar y₂ && isDigitChar y₃ && isDigitChar y₄ &&
      d₁ == '-' && isDigitChar m₁ && isDigitChar m₂ && d₂ == '-' &&
      isDigitChar a₁ && isDigitChar a₂ &&
      (let m := digitVal m₁ * 10 + digitVal m₂
       let d := digitVal a₁ * 10 + digitVal a₂
       1 ≤ m && m ≤ 12 && 1 ≤ d && d ≤ 31)
  | _ => false

/-- The `DOC-` + four digits shape of the generated placeholder number. -/
def isDocPlaceholder (s : String) : Bool :=
  match s.toList with
  | ['D', 'O', 'C', '-', a, b, c, d] =>
      isDigitChar a && isDigitChar b && isDigitChar c && isDigitChar d
  | _ => false

/-! The invoice data model (`invoice.types` / `Invoice` Mongoose schema) and
the `/api/invoices` route handlers, over a list-of-documents model of the
`invoices` collection. Numbers are `Rat`, dates and timestamps are the ISO
strings the code stores. -/

structure Vendor where
  name : String
  address : Option String := none
  taxId : Option String := none
deriving DecidableEq

structure LineItem where
  description : String
  unitPrice : Rat
  quantity : Rat
  total : Rat
deriving DecidableEq

structure InvoiceData where
  number : String
  date : String
  currency : Option String := none
  subtotal : Option Rat := none
  taxPercent : Option Rat := none
  total : Option Rat := none
  poNumber : Option String := none
  poDate : Option String := none
  lineItems : List LineItem := []
deriving DecidableEq

/-- A stored invoice document. `id` is the Mongo `_id` as its 24-hex-character
string. `createdAt` is set once by the create route; `updatedAt` starts absent
and is set by the update route. -/
structure Invoice where
  id : String
  fileId : String
  fileName : String
  vendor : Vendor
  invoice : InvoiceData
  createdAt : String
  updatedAt : Option String := none
deriving DecidableEq

/-- The route-level `_id` format check `id.match(24-hex-digit pattern)`. -/
def isHexChar (c : Char) : Bool :=
  ('0' ≤ c && c ≤ '9') || ('a' ≤ c && c ≤ 'f') || ('A' ≤ c && c ≤ 'F')

def isValidObjectIdStr (s : String) : Bool :=
  s.toList.length == 24 && s.toList.all isHexChar

/-- A `POST /api/invoices` body after `createInvoiceSchema` validation.
`callerCreatedAt` records a `createdAt` the caller may have sent along; the
route overwrites it with the server time before saving. -/
structure CreateBody where
  fileId : String
  fileName : String
  vendor : Vendor
  invoice : InvoiceData
  callerCreatedAt : Option String := none
deriving DecidableEq

/-- A `PUT /api/invoices/:id` body after `updateInvoiceSchema` validation:
every top-level section is optional, and a provided `vendor`/`invoice` is a
complete sub-object (its required inner fields are enforced by the schema). -/
structure UpdateBody where
  fileId : Option String := none
  fileName : Option String := none
  vendor : Option Vendor := none
  invoice : Option InvoiceData := none
deriving DecidableEq

inductive CreateResult where
  | created (inv : Invoice)
  | conflict
deriving DecidableEq

/-- HTTP status of a create outcome (`201` vs the `409` conflict answer). -/
def createStatus : CreateResult → Nat
  | .created _ => 201
  | .conflict => 409

/-- `POST /api/invoices`: reject when an invoice with the same `fileId`
exists (the route's `findOne` pre-check; the schema's unique index would
surface the same conflict as a caught duplicate-key error, as would a clash
on the generated `_id`), otherwise set `createdAt` server-side — overwriting
anything the caller sent — and insert the document with `updatedAt` unset. -/
def postInvoice (store : List Invoice) (freshId : String) (b : CreateBody)
    (now : String) : CreateResult × List Invoice :=
  if store.any (fun d => d.fileId == b.fileId) then (.conflict, store)
  else if store.any (fun d => d.id == freshId) then (.conflict, store)
  else
    let inv : Invoice :=
      { id := freshId, fileId := b.fileId, fileName := b.fileName,
        vendor := b.vendor, invoice := b.invoice,
        createdAt := now, updatedAt := none }
    (.created inv, store ++ [inv])

/-- The document produced by
`findByIdAndUpdate(id, updateData, runValidators)`: Mongoose casts the plain
update object to a `$set` of its top-level keys, so a provided `vendor` or
`invoice` replaces that embedded sub-document wholly; omitted keys are left
untouched. The route added `updatedAt := now` to the update beforehand. -/
def applyUpdate (doc : Invoice) (b : UpdateBody) (now : String) : Invoice :=
  { doc with
    fileId := b.fileId.getD doc.fileId,
    fileName := b.fileName.getD doc.fileName,
    vendor := b.vendor.getD doc.vendor,
    invoice := b.invoice.getD doc.invoice,
    updatedAt := some now }

/-- Replace the first document matching `id` (Mongo updates the single
document with that `_id`). -/
def updateFirst (id : String) (new : Invoice) : List Invoice → List Invoice
  | [] => []
  | d :: rest =>
      if d.id == id then new :: rest else d :: updateFirst id new rest

inductive UpdateResult where
  | ok (inv : Invoice)
  | notFound
  | conflict
  | badId
deriving DecidableEq

/-- `PUT /api/invoices/:id`: format-check the id, 404 when absent, 409 when
the update would leave two documents with one `fileId` (the unique index's
duplicate-key error, which the route catches), otherwise replace the document
with the merged one. -/
def putInvoice (store : List Invoice) (id : String) (b : UpdateBody)
    (now : String) : UpdateResult × List Invoice :=
  if !isValidObjectIdStr id then (.badId, store)
  else
    match store.find? (fun d => d.id == id) with
    | none => (.notFound, store)
    | some doc =>
      let updated := applyUpdate doc b now
      if store.any (fun d => !(d.id == id) && d.fileId == updated.fileId) then
        (.conflict, store)
      else (.ok updated, updateFirst id updated store)

inductive DeleteResult where
  | deleted
  | notFound
  | badId
deriving DecidableEq

/-- `DELETE /api/invoices/:id` (`findByIdAndDelete`). -/
def deleteInvoice (store : List Invoice) (id : String) :
    DeleteResult × List Invoice :=
  if !isValidObjectIdStr id then (.badId, store)
  else
    match store.find? (fun d => d.id == id) with
    | none => (.notFound, store)
    | some _ => (.deleted, store.eraseP (fun d => d.id == id))

/-- The write operations that produce new collection states. -/
inductive StoreOp where
  | create (freshId : String) (b : CreateBody) (now : String)
  | update (id : String) (b : UpdateBody) (now : String)
  | delete (id : String)

def applyOp (store : List Invoice) : StoreOp → List Invoice
  | .create freshId b now => (postInvoice store freshId b now).2
  | .update id b now => (putInvoice store id b now).2
  | .delete id => (deleteInvoice store id).2

/-- Collection states reachable from the empty collection through the write
routes. -/
inductive Reachable : List Invoice → Prop
  | nil : Reachable []
  | step {s : List Invoice} (op : StoreOp) : Reachable s → Reachable (applyOp s op)

/-! `GET /api/invoices`: the search/pagination handler. The trimmed query is
used, unescaped, as a case-insensitive regular-expression pattern against
`vendor.name` and `invoice.number`. The regex engine is modelled on the
fragment the claims exercise: patterns made of literal characters and the
any-character wildcard `'.'` (which matches everything but a line
terminator); the search theorems restrict their pattern hypotheses to this
fragment, where the model agrees with the real engine. -/

/-- One pattern character against one text character, under the
case-insensitive flag. -/
def regexCharMatches (p t : Char) : Bool :=
  if p == '.' then !(t == '\n' || t == '\r')
  else p.toLower == t.toLower

/-- Match the whole pattern at the start of the text. -/
def matchAt : List Char → List Char → Bool
  | [], _ => true
  | _ :: _, [] => false
  | p :: ps, t :: ts => regexCharMatches p t && matchAt ps ts

/-- Match the pattern somewhere in the text (an unanchored regex test). -/
def regexTest (pat : List Char) : List Char → Bool
  | [] => matchAt pat []
  | t :: ts => matchAt pat (t :: ts) || regexTest pat ts

def regexTestStr (pat text : String) : Bool :=
  regexTest pat.toList text.toList

/-- The per-document filter built by the route:
vendor-name regex-match OR invoice-number regex-match. -/
def invoiceMatches (pat : String) (inv : Invoice) : Bool :=
  regexTestStr pat inv.vendor.name || regexTestStr pat inv.invoice.number

/-- The regex pattern the route puts into the Mongo filter: the trimmed query,
when the query is a non-empty string with non-empty trim (the
`q && q.trim()` test); otherwise no filter. -/
def queryPattern (q : Option String) : Option String :=
  match q with
  | some s =>
      if !(s == "") && !(jsTrimStr s == "") then some (jsTrimStr s) else none
  | none => none

def filterByQuery (q : Option String) (store : List Invoice) : List Invoice :=
  match queryPattern q with
  | some pat => store.filter (invoiceMatches pat)
  | none => store

/-- The sort key selected by `sortBy` (one of the four values
`searchQuerySchema` admits; a document with no `updatedAt` sorts as the empty
string — Mongo's exact missing-field collation is irrelevant to the claims,
which use only that sorting permutes). -/
def invKey (sortBy : String) (inv : Invoice) : String :=
  if sortBy == "updatedAt" then inv.updatedAt.getD ""
  else if sortBy == "vendor.name" then inv.vendor.name
  else if sortBy == "invoice.number" then inv.invoice.number
  else inv.createdAt

/-- The comparator of the Mongo sort: descending exactly when
`sortOrder == "desc"`. -/
def mongoLe (sortBy sortOrder : String) (a b : Invoice) : Bool :=
  if sortOrder == "desc" then !(invKey sortBy a < invKey sortBy b)
  else !(invKey sortBy b < invKey sortBy a)

def insertSorted (le : Invoice → Invoice → Bool) (a : Invoice) :
    List Invoice → List Invoice
  | [] => [a]
  | b :: rest => if le a b then a :: b :: rest else b :: insertSorted le a rest

/-- Model of the Mongo `sort` stage (an insertion sort; the claims depend only
on the output being a permutation of the input). -/
def sortInvoices (sortBy sortOrder : String) : List Invoice → List Invoice
  | [] => []
  | a :: rest => insertSorted (mongoLe sortBy sortOrder) a (sortInvoices sortBy sortOrder rest)

/-- Validated `GET /api/invoices` query parameters, after `searchQuerySchema`
defaults: `page ≥ 1`, `limit ∈ [1, 100]`. -/
structure SearchParams where
  q : Option String := none
  page : Nat := 1
  limit : Nat := 10
  sortBy : String := "createdAt"
  sortOrder : String := "desc"

structure SearchResponse where
  data : List Invoice
  page : Nat
  limit : Nat
  total : Nat
  pages : Nat

/-- `Math.ceil(a / b)` on naturals, for `b > 0`. -/
def jsCeilDiv (a b : Nat) : Nat := (a + b - 1) / b

/-- The search handler: one filter value feeds both the page query
(`find(query).sort(sort).skip(skip).limit(limit)`) and the count query
(`countDocuments(query)`); the response carries
`pagination = page, limit, total, pages = ceil(total / limit)`. -/
def getInvoices (store : List Invoice) (p : SearchParams) : SearchResponse :=
  let skip := (p.page - 1) * p.limit
  let filtered := filterByQuery p.q store
  let sorted := sortInvoices p.sortBy p.sortOrder filtered
  { data := (sorted.drop skip).take p.limit,
    page := p.page, limit := p.limit,
    total := filtered.length,
    pages := jsCeilDiv filtered.length p.limit }

/-! Spec-side predicates for the search claims. -/

/-- Needle occurs at the start of the haystack (character-exact). -/
def strHasPfx : List Char → List Char → Bool
  | [], _ => true
  | _ :: _, [] => false
  | a :: as, b :: bs => a == b && strHasPfx as bs

/-- Needle occurs somewhere in the haystack (character-exact). -/
def strHasSub (needle : List Char) : List Char → Bool
  | [] => strHasPfx needle []
  | b :: bs => strHasPfx needle (b :: bs) || strHasSub needle bs

/-- Spec-side notion from §4.4: `needle` is contained in `hay` as a
case-insensitive substring. -/
def SubstrCI (needle hay : String) : Prop :=
  ∃ pre post,
    hay.toList.map Char.toLower =
      pre ++ needle.toList.map Char.toLower ++ post

/-- Spec-side per-document search predicate: the query is a case-insensitive
substring of `vendor.name` OR of `invoice.number` (executable form). -/
def specMatches (q : String) (inv : Invoice) : Bool :=
  strHasSub (q.toList.map Char.toLower)
    (inv.vendor.name.toList.map Char.toLower) ||
  strHasSub (q.toList.map Char.toLower)
    (inv.invoice.number.toList.map Char.toLower)

/-- Characters that are metacharacters of the regex dialect at hand; a pattern
avoiding them matches literally. -/
def regexMetachars : List Char :=
  ['.', '\\', '^', '$', '*', '+', '?', '(', ')', '[', ']', '|', '\x7b', '\x7d']

def isLiteralPattern (s : String) : Bool :=
  s.toList.all (fun c => !regexMetachars.contains c)

/-! The upload middleware: `fileFilter` and the fileFilter branch of
`handleUploadError`. -/

structure UploadedFile where
  originalname : String
  mimetype : String
  size : Nat
deriving DecidableEq

/-- `s.toLowerCase()` (ASCII case folding, which is also what the regex
engine's case-insensitive flag applies outside UTF mode). -/
def jsToLower (s : String) : String :=
  String.mk (s.toList.map Char.toLower)

/-- `s.endsWith(suffix)`. -/
def jsEndsWith (s sfx : String) : Bool :=
  strHasPfx sfx.toList.reverse s.toList.reverse

/-- `hay.includes(needle)`. -/
def jsIncludes (hay needle : String) : Bool :=
  strHasSub needle.toList hay.toList

inductive FilterOutcome where
  | accept
  | reject (message : String)
deriving DecidableEq

/-- The multer `fileFilter`: reject unless the lower-cased original name ends
in `.pdf` AND the mime type is exactly `application/pdf`. -/
def fileFilter (file : UploadedFile) : FilterOutcome :=
  if !jsEndsWith (jsToLower file.originalname) ".pdf" then
    .reject "Only PDF files are allowed"
  else if !(file.mimetype == "application/pdf") then
    .reject "Invalid file type. Only PDF files are allowed"
  else .accept

inductive UploadOutcome where
  | stored (file : UploadedFile)
  | rejected (status : Nat) (message : String)
  | passedToNext (message : String)
deriving DecidableEq

/-- Modelled from the spec and multer's contract: when `fileFilter` rejects
with an `Error`, multer aborts the request without storing the file and hands
the error to the error middleware; such an error is not a `multer.MulterError`,
so `handleUploadError` reaches its fileFilter branch, answering `400` with the
error's message when that message includes one of the two fileFilter phrases
and passing the error on otherwise. -/
def uploadPipeline (file : UploadedFile) : UploadOutcome :=
  match fileFilter file with
  | .accept => .stored file
  | .reject msg =>
      if jsIncludes msg "Only PDF files are allowed" ||
         jsIncludes msg "Invalid file type" then
        .rejected 400 msg
      else .passedToNext msg

/-! The GridFS `ObjectId` derivation. Each of `upload`, `download`, `delete`
and `getFileInfo` computes, inline, the hex string
`fileId` with dashes removed, cut to 24 characters, padded with `'0'`. -/

def removeDashes (s : String) : String :=
  String.mk (s.toList.filter (fun c => !(c == '-')))

def jsSubstring24 (s : String) : String :=
  String.mk (s.toList.take 24)

def jsPadEnd24 (s : String) : String :=
  s ++ String.mk (List.replicate (24 - s.toList.length) '0')

/-- The `ObjectId` hex string `GridFSStorageService.upload` stores under. -/
def uploadOid (fileId : String) : String :=
  jsPadEnd24 (jsSubstring24 (removeDashes fileId))

/-- The `ObjectId` hex string `GridFSStorageService.download` resolves. -/
def downloadOid (fileId : String) : String :=
  jsPadEnd24 (jsSubstring24 (removeDashes fileId))

/-- The `ObjectId` hex string `GridFSStorageService.delete` resolves. -/
def deleteOid (fileId : String) : String :=
  jsPadEnd24 (jsSubstring24 (removeDashes fileId))

/-- The `ObjectId` hex string `GridFSStorageService.getFileInfo` resolves. -/
def getFileInfoOid (fileId : String) : String :=
  jsPadEnd24 (jsSubstring24 (removeDashes fileId))

/-! Concrete records used by the scenario theorems below. -/

/-- The create body of the spec's `POST /api/invoices` scenario, carrying a
caller-supplied `createdAt` that the route must ignore. -/
def acmeBody : CreateBody :=
  { fileId := "abc"
    fileName := "abc.pdf"
    vendor := { name := "Acme" }
    invoice := { number := "INV-1", date := "2024-01-15" }
    callerCreatedAt := some "1999-01-01T00:00:00.000Z" }

/-- A stored invoice whose vendor has an address and a tax id. -/
def invAcme : Invoice :=
  { id := "aaaaaaaaaaaaaaaaaaaaaaaa"
    fileId := "f1"
    fileName := "a.pdf"
    vendor := { name := "Acme", address := some "1 Main St", taxId := some "T1" }
    invoice := { number := "INV-1", date := "2024-01-15" }
    createdAt := "2024-01-01T00:00:00.000Z"
    updatedAt := some "2024-01-02T00:00:00.000Z" }

/-- The invoice the route stores for `acmeBody` under a fresh id at time
`"t1"`. -/
def acmeStored : Invoice :=
  { id := "bbbbbbbbbbbbbbbbbbbbbbbb"
    fileId := "abc"
    fileName := "abc.pdf"
    vendor := { name := "Acme" }
    invoice := { number := "INV-1", date := "2024-01-15" }
    createdAt := "t1" }

/-- A stored invoice whose vendor name is `"abc"` and number `"zzz"`. -/
def invAbc : Invoice :=
  { id := "cccccccccccccccccccccccc"
    fileId := "f3"
    fileName := "c.pdf"
    vendor := { name := "abc" }
    invoice := { number := "zzz", date := "2024-01-01" }
    createdAt := "2024-01-03T00:00:00.000Z" }

/-! Helper lemmas about the JavaScript value model. -/

theorem ebind_ok {α β : Type} (a : α) (f : α → Except JsErr β) :
    (Except.ok a >>= f) = f a := rfl

theorem ebind_err {α β : Type} (e : JsErr) (f : α → Except JsErr β) :
    ((Except.error e : Except JsErr α) >>= f) = Except.error e := rfl

theorem lookupProp_updateProp_self (props : List (String × JsValue))
    (f : String) (v : JsValue) :
    lookupProp (updateProp props f v) f = v := by
  induction props with
  | nil => simp [updateProp, lookupProp]
  | cons hd tl ih =>
    obtain ⟨g, w⟩ := hd
    by_cases hgf : g = f
    · simp [updateProp, lookupProp, hgf]
    · simp only [updateProp, if_neg hgf, lookupProp]
      exact ih

theorem lookupProp_updateProp_other (props : List (String × JsValue))
    (f g : String) (v : JsValue) (h : ¬g = f) :
    lookupProp (updateProp props f v) g = lookupProp props g := by
  have hfg : ¬f = g := fun hh => h hh.symm
  induction props with
  | nil =>
    simp only [updateProp, lookupProp]
    rw [if_neg hfg]
  | cons hd tl ih =>
    obtain ⟨k, w⟩ := hd
    by_cases hkf : k = f
    · subst hkf
      simp only [updateProp, if_pos rfl, lookupProp]
      rw [if_neg hfg, if_neg hfg]
    · simp only [updateProp, if_neg hkf, lookupProp]
      by_cases hkg : k = g
      · rw [if_pos hkg, if_pos hkg]
      · rw [if_neg hkg, if_neg hkg, ih]

theorem getProp_ok {v : JsValue} {f : String} {w : JsValue}
    (h : getProp v f = .ok w) : jsGetD v f = w := by
  cases v with
  | undefined => simp [getProp] at h
  | jsNull => simp [getProp] at h
  | bool b => simp only [getProp, Except.ok.injEq] at h; simp [jsGetD, h]
  | num q => simp only [getProp, Except.ok.injEq] at h; simp [jsGetD, h]
  | str s => simp only [getProp, Except.ok.injEq] at h; simp [jsGetD, h]
  | arr es props =>
    simp only [getProp, Except.ok.injEq] at h; simp [jsGetD, h]
  | obj props =>
    simp only [getProp, Except.ok.injEq] at h; simp [jsGetD, h]

theorem setProp_ok_get_self {v : JsValue} {f : String} {x w : JsValue}
    (h : setProp v f x = .ok w) : jsGetD w f = x := by
  cases v with
  | arr es props =>
    simp only [setProp, Except.ok.injEq] at h
    rw [← h]
    simp [jsGetD, lookupProp_updateProp_self]
  | obj props =>
    simp only [setProp, Except.ok.injEq] at h
    rw [← h]
    simp [jsGetD, lookupProp_updateProp_self]
  | undefined => simp [setProp] at h
  | jsNull => simp [setProp] at h
  | bool b => simp [setProp] at h
  | num q => simp [setProp] at h
  | str s => simp [setProp] at h

theorem setProp_ok_get_other {v : JsValue} {f g : String} {x w : JsValue}
    (hg : ¬g = f) (h : setProp v f x = .ok w) : jsGetD w g = jsGetD v g := by
  cases v with
  | arr es props =>
    simp only [setProp, Except.ok.injEq] at h
    rw [← h]
    simp [jsGetD, lookupProp_updateProp_other _ _ _ _ hg]
  | obj props =>
    simp only [setProp, Except.ok.injEq] at h
    rw [← h]
    simp [jsGetD, lookupProp_updateProp_other _ _ _ _ hg]
  | undefined => simp [setProp] at h
  | jsNull => simp [setProp] at h
  | bool b => simp [setProp] at h
  | num q => simp [setProp] at h
  | str s => simp [setProp] at h

theorem setProp_ok_shape {v : JsValue} {f : String} {x w : JsValue}
    (h : setProp v f x = .ok w) :
    isObj w = isObj v ∧ isArray w = isArray v := by
  cases v with
  | arr es props =>
    simp only [setProp, Except.ok.injEq] at h
    rw [← h]; exact ⟨rfl, rfl⟩
  | obj props =>
    simp only [setProp, Except.ok.injEq] at h
    rw [← h]; exact ⟨rfl, rfl⟩
  | undefined => simp [setProp] at h
  | jsNull => simp [setProp] at h
  | bool b => simp [setProp] at h
  | num q => simp [setProp] at h
  | str s => simp [setProp] at h

/-! Structural lemmas about the normalizer's two building blocks. -/

theorem ensureObjField_ok {p : JsValue} {f : String} {p' : JsValue}
    (h : ensureObjField p f = .ok p') :
    (truthy (jsGetD p f) = true ∧ p' = p) ∨
    (truthy (jsGetD p f) = false ∧ jsGetD p' f = .obj [] ∧
      ∀ g, ¬g = f → jsGetD p' g = jsGetD p g) := by
  unfold ensureObjField at h
  cases hv : getProp p f with
  | error e => rw [hv] at h; exact absurd h (by simp)
  | ok v =>
    rw [hv] at h
    have hveq : jsGetD p f = v := getProp_ok hv
    by_cases ht : truthy v = true
    · left
      simp [ht] at h
      exact ⟨by rw [hveq]; exact ht, h.symm⟩
    · right
      have ht' : truthy v = false := by revert ht; cases truthy v <;> simp
      simp [ht'] at h
      refine ⟨by rw [hveq]; exact ht', setProp_ok_get_self h, ?_⟩
      intro g hg
      exact setProp_ok_get_other hg h

theorem defaultFieldIf_ok {cond : JsValue → Bool} {p : JsValue}
    {sec fld : String} {dflt p' : JsValue}
    (h : defaultFieldIf cond p sec fld dflt = .ok p') :
    (cond (getD2 p sec fld) = false ∧ p' = p) ∨
    (cond (getD2 p sec fld) = true ∧
      getD2 p' sec fld = dflt ∧
      (∀ g, ¬g = fld → getD2 p' sec g = getD2 p sec g) ∧
      (∀ h', ¬h' = sec → jsGetD p' h' = jsGetD p h') ∧
      isObj (jsGetD p' sec) = isObj (jsGetD p sec) ∧
      isArray (jsGetD p' sec) = isArray (jsGetD p sec)) := by
  unfold defaultFieldIf at h
  cases hs : getProp p sec with
  | error e => rw [hs] at h; exact absurd h (by simp)
  | ok s =>
    rw [hs] at h
    dsimp only at h
    have hseq : jsGetD p sec = s := getProp_ok hs
    cases hc : getProp s fld with
    | error e => rw [hc] at h; exact absurd h (by simp)
    | ok cur =>
      rw [hc] at h
      dsimp only at h
      have hcur : getD2 p sec fld = cur := by
        rw [getD2, hseq]; exact getProp_ok hc
      by_cases hcond : cond cur = true
      · right
        rw [if_pos hcond] at h
        cases hset : setProp s fld dflt with
        | error e => rw [hset] at h; exact absurd h (by simp)
        | ok s' =>
          rw [hset] at h
          have hp'sec : jsGetD p' sec = s' := setProp_ok_get_self h
          refine ⟨by rw [hcur]; exact hcond, ?_, ?_, ?_, ?_, ?_⟩
          · rw [getD2, hp'sec, setProp_ok_get_self hset]
          · intro g hg
            rw [getD2, getD2, hp'sec, hseq, setProp_ok_get_other hg hset]
          · intro h' hh'
            exact setProp_ok_get_other hh' h
          · rw [hp'sec, hseq]; exact (setProp_ok_shape hset).1
          · rw [hp'sec, hseq]; exact (setProp_ok_shape hset).2
      · left
        have hcond' : cond cur = false := by revert hcond; cases cond cur <;> simp
        rw [if_neg (by simp [hcond'])] at h
        refine ⟨by rw [hcur]; exact hcond', ?_⟩
        cases h; rfl

theorem defaultFieldIf_frame_sec {cond : JsValue → Bool} {p : JsValue}
    {sec fld : String} {dflt p' : JsValue}
    (h : defaultFieldIf cond p sec fld dflt = .ok p')
    {h' : String} (hh : ¬h' = sec) : jsGetD p' h' = jsGetD p h' := by
  rcases defaultFieldIf_ok h with ⟨-, rfl⟩ | ⟨-, -, -, hfr, -, -⟩
  · rfl
  · exact hfr h' hh

theorem defaultFieldIf_frame_fld {cond : JsValue → Bool} {p : JsValue}
    {sec fld : String} {dflt p' : JsValue}
    (h : defaultFieldIf cond p sec fld dflt = .ok p')
    {g : String} (hg : ¬g = fld) : getD2 p' sec g = getD2 p sec g := by
  rcases defaultFieldIf_ok h with ⟨-, rfl⟩ | ⟨-, -, hfr, -, -, -⟩
  · rfl
  · exact hfr g hg

theorem defaultFieldIf_post {cond : JsValue → Bool} {p : JsValue}
    {sec fld : String} {dflt p' : JsValue}
    (h : defaultFieldIf cond p sec fld dflt = .ok p')
    (hd : cond dflt = false) : cond (getD2 p' sec fld) = false := by
  rcases defaultFieldIf_ok h with ⟨hc, rfl⟩ | ⟨-, hset, -, -, -, -⟩
  · exact hc
  · rw [hset]; exact hd

theorem defaultFieldIf_forced {cond : JsValue → Bool} {p : JsValue}
    {sec fld : String} {dflt p' : JsValue}
    (h : defaultFieldIf cond p sec fld dflt = .ok p')
    (hc : cond (getD2 p sec fld) = true) : getD2 p' sec fld = dflt := by
  rcases defaultFieldIf_ok h with ⟨hc', rfl⟩ | ⟨-, hset, -, -, -, -⟩
  · rw [hc] at hc'; cases hc'
  · exact hset

theorem defaultFieldIf_shape {cond : JsValue → Bool} {p : JsValue}
    {sec fld : String} {dflt p' : JsValue}
    (h : defaultFieldIf cond p sec fld dflt = .ok p') :
    isObj (jsGetD p' sec) = isObj (jsGetD p sec) ∧
    isArray (jsGetD p' sec) = isArray (jsGetD p sec) := by
  rcases defaultFieldIf_ok h with ⟨-, rfl⟩ | ⟨-, -, -, -, ho, ha⟩
  · exact ⟨rfl, rfl⟩
  · exact ⟨ho, ha⟩

theorem setProp_ok_objOrArr {v : JsValue} {f : String} {x w : JsValue}
    (h : setProp v f x = .ok w) : isObjOrArr w = true := by
  cases v with
  | arr es props =>
    simp only [setProp, Except.ok.injEq] at h
    rw [← h]; rfl
  | obj props =>
    simp only [setProp, Except.ok.injEq] at h
    rw [← h]; rfl
  | undefined => simp [setProp] at h
  | jsNull => simp [setProp] at h
  | bool b => simp [setProp] at h
  | num q => simp [setProp] at h
  | str s => simp [setProp] at h

/-- After a successful defaulting step whose condition accepts `undefined`,
the section the step read through is an object or an array: a primitive
section would have read as `undefined`, fired the condition, and made the
strict-mode assignment throw. -/
theorem defaultFieldIf_sec_objOrArr {cond : JsValue → Bool} {p : JsValue}
    {sec fld : String} {dflt p' : JsValue}
    (h : defaultFieldIf cond p sec fld dflt = .ok p')
    (hu : cond JsValue.undefined = true) :
    isObjOrArr (jsGetD p' sec) = true := by
  unfold defaultFieldIf at h
  cases hs : getProp p sec with
  | error e => rw [hs] at h; exact absurd h (by simp)
  | ok s =>
    rw [hs] at h
    dsimp only at h
    have hseq : jsGetD p sec = s := getProp_ok hs
    cases hc : getProp s fld with
    | error e => rw [hc] at h; exact absurd h (by simp)
    | ok cur =>
      rw [hc] at h
      dsimp only at h
      by_cases hcond : cond cur = true
      · rw [if_pos hcond] at h
        cases hset : setProp s fld dflt with
        | error e => rw [hset] at h; exact absurd h (by simp)
        | ok s' =>
          rw [hset] at h
          rw [setProp_ok_get_self h]
          exact setProp_ok_objOrArr hset
      · rw [if_neg (by simpa using hcond)] at h
        cases h
        rw [hseq]
        cases s with
        | arr es props => rfl
        | obj props => rfl
        | undefined => simp [getProp] at hc
        | jsNull => simp [getProp] at hc
        | bool b =>
          simp only [getProp, Except.ok.injEq] at hc
          rw [← hc] at hcond
          exact absurd hu hcond
        | num q =>
          simp only [getProp, Except.ok.injEq] at hc
          rw [← hc] at hcond
          exact absurd hu hcond
        | str t =>
          simp only [getProp, Except.ok.injEq] at hc
          rw [← hc] at hcond
          exact absurd hu hcond

theorem ensureObjField_frame {p : JsValue} {f : String} {p' : JsValue}
    (h : ensureObjField p f = .ok p') {g : String} (hg : ¬g = f) :
    jsGetD p' g = jsGetD p g := by
  rcases ensureObjField_ok h with ⟨-, rfl⟩ | ⟨-, -, hfr⟩
  · rfl
  · exact hfr g hg

theorem ensureObjField_falsy_to_obj {p : JsValue} {f : String} {p' : JsValue}
    (h : ensureObjField p f = .ok p') (hf : truthy (jsGetD p f) = false) :
    jsGetD p' f = .obj [] := by
  rcases ensureObjField_ok h with ⟨ht, rfl⟩ | ⟨-, hobj, -⟩
  · rw [hf] at ht; cases ht
  · exact hobj

theorem ensureObjField_cond_pres (c : JsValue → Bool) {p : JsValue}
    {f : String} {p' : JsValue} {g : String}
    (h : ensureObjField p f = .ok p') (hu : c JsValue.undefined = true)
    (hold : c (getD2 p f g) = true) : c (getD2 p' f g) = true := by
  rcases ensureObjField_ok h with ⟨-, rfl⟩ | ⟨-, hobj, -⟩
  · exact hold
  · rw [getD2, hobj]; simpa [jsGetD, lookupProp] using hu

/-- Dissection of a successful run of the normalizer's `try` body into its
eight stages. -/
theorem tryChain_ok {today : String} {rand : Nat} {response : String}
    {v : JsValue} (h : parseAIResponseTry today rand response = .ok v) :
    ∃ p₀ p₁ p₂ p₃ p₄ p₅ p₆,
      jsonParse (cleanAI response) = some p₀ ∧
      ensureObjField p₀ "vendor" = .ok p₁ ∧
      ensureObjField p₁ "invoice" = .ok p₂ ∧
      defaultFieldIf falsyOrNull p₂ "vendor" "name"
        (.str "Unknown Vendor") = .ok p₃ ∧
      defaultFieldIf falsyOrNull p₃ "invoice" "number"
        (.str (docNumber rand)) = .ok p₄ ∧
      defaultFieldIf falsyOrNull p₄ "invoice" "date"
        (.str today) = .ok p₅ ∧
      defaultFieldIf (fun x => !truthy x) p₅ "invoice" "currency"
        (.str "USD") = .ok p₆ ∧
      defaultFieldIf (fun x => !isArray x) p₆ "invoice" "lineItems"
        (.arr [] []) = .ok v := by
  unfold parseAIResponseTry at h
  cases hj : jsonParse (cleanAI response) with
  | none => simp only [hj, ebind_err] at h; exact Except.noConfusion h
  | some p₀ =>
    simp only [hj, ebind_ok] at h
    cases h₁ : ensureObjField p₀ "vendor" with
    | error e => simp only [h₁, ebind_err] at h; exact Except.noConfusion h
    | ok p₁ =>
      simp only [h₁, ebind_ok] at h
      cases h₂ : ensureObjField p₁ "invoice" with
      | error e => simp only [h₂, ebind_err] at h; exact Except.noConfusion h
      | ok p₂ =>
        simp only [h₂, ebind_ok] at h
        cases h₃ : defaultFieldIf falsyOrNull p₂ "vendor" "name"
            (.str "Unknown Vendor") with
        | error e => simp only [h₃, ebind_err] at h; exact Except.noConfusion h
        | ok p₃ =>
          simp only [h₃, ebind_ok] at h
          cases h₄ : defaultFieldIf falsyOrNull p₃ "invoice" "number"
              (.str (docNumber rand)) with
          | error e => simp only [h₄, ebind_err] at h; exact Except.noConfusion h
          | ok p₄ =>
            simp only [h₄, ebind_ok] at h
            cases h₅ : defaultFieldIf falsyOrNull p₄ "invoice" "date"
                (.str today) with
            | error e => simp only [h₅, ebind_err] at h; exact Except.noConfusion h
            | ok p₅ =>
              simp only [h₅, ebind_ok] at h
              cases h₆ : defaultFieldIf (fun x => !truthy x) p₅ "invoice"
                  "currency" (.str "USD") with
              | error e => simp only [h₆, ebind_err] at h; exact Except.noConfusion h
              | ok p₆ =>
                simp only [h₆, ebind_ok] at h
                cases h₇ : defaultFieldIf (fun x => !isArray x) p₆ "invoice"
                    "lineItems" (.arr [] []) with
                | error e => simp only [h₇, ebind_err] at h; exact Except.noConfusion h
                | ok p₇ =>
                  simp only [h₇, ebind_ok, pure, Except.pure,
                    Except.ok.injEq] at h
                  subst h
                  exact ⟨p₀, p₁, p₂, p₃, p₄, p₅, p₆, rfl, h₁, h₂, h₃, h₄, h₅,
                    h₆, h₇⟩

/-! Facts about the generated defaults: the placeholder number is `DOC-` plus
four digits, and the defaults are truthy. -/

theorem falsyOrNull_false_truthy {x : JsValue} (h : falsyOrNull x = false) :
    truthy x = true := by
  unfold falsyOrNull at h
  cases ht : truthy x
  · rw [ht] at h; simp at h
  · rfl

theorem not_isArray_false {x : JsValue} (h : (!isArray x) = false) :
    isArray x = true := by
  cases ha : isArray x
  · rw [ha] at h; simp at h
  · rfl

theorem docNumber_ne_empty (rand : Nat) : ¬docNumber rand = "" := by
  intro h
  have : (docNumber rand).data = "".data := congrArg String.data h
  rw [docNumber, String.data_append] at this
  simp at this

theorem falsyOrNull_docNumber (rand : Nat) :
    falsyOrNull (.str (docNumber rand)) = false := by
  simp [falsyOrNull, truthy, isNull, docNumber_ne_empty rand]

theorem isValidDate_ne_empty {s : String} (h : isValidDate s = true) :
    ¬s = "" := by
  intro he
  subst he
  exact absurd h (by decide)

theorem falsyOrNull_validDate {s : String} (h : isValidDate s = true) :
    falsyOrNull (.str s) = false := by
  simp [falsyOrNull, truthy, isNull, isValidDate_ne_empty h]

theorem digitChar_isDigit (d : Nat) (h : d < 10) :
    isDigitChar (Nat.digitChar d) = true := by
  interval_cases d <;> decide

/-- For a four-digit number, `Nat.toDigitsCore` (the engine behind `toString`)
produces exactly the four decimal digit characters, for any sufficient fuel. -/
theorem toDigitsCore_four (n : Nat) (h₁ : 1000 ≤ n) (h₂ : n ≤ 9999) :
    ∀ fuel, n < fuel → ∀ ds, Nat.toDigitsCore 10 fuel n ds =
      Nat.digitChar (n / 1000 % 10) :: Nat.digitChar (n / 100 % 10) ::
      Nat.digitChar (n / 10 % 10) :: Nat.digitChar (n % 10) :: ds := by
  intro fuel hf ds
  match fuel, hf with
  | f₁ + 1, _ =>
    rw [Nat.toDigitsCore]
    have hd₁ : ¬n / 10 = 0 := by omega
    simp only [if_neg hd₁]
    match f₁, (show n / 10 < f₁ by omega) with
    | f₂ + 1, _ =>
      rw [Nat.toDigitsCore]
      have hd₂ : ¬n / 10 / 10 = 0 := by omega
      simp only [if_neg hd₂]
      match f₂, (show n / 10 / 10 < f₂ by omega) with
      | f₃ + 1, _ =>
        rw [Nat.toDigitsCore]
        have hd₃ : ¬n / 10 / 10 / 10 = 0 := by omega
        simp only [if_neg hd₃]
        match f₃, (show n / 10 / 10 / 10 < f₃ by omega) with
        | f₄ + 1, _ =>
          rw [Nat.toDigitsCore]
          have hd₄ : n / 10 / 10 / 10 / 10 = 0 := by omega
          simp only [if_pos hd₄]
          have e₁ : n / 10 / 10 / 10 % 10 = n / 1000 % 10 := by omega
          have e₂ : n / 10 / 10 % 10 = n / 100 % 10 := by omega
          rw [e₁, e₂]

theorem truthy_str_of_ne {s : String} (h : ¬s = "") :
    truthy (.str s) = true := by
  simp [truthy]
  exact h

theorem docNumber_placeholder (rand : Nat) (h₁ : 1000 ≤ rand)
    (h₂ : rand ≤ 9999) : isDocPlaceholder (docNumber rand) = true := by
  have hrepr : (docNumber rand).toList =
      ['D', 'O', 'C', '-', Nat.digitChar (rand / 1000 % 10),
       Nat.digitChar (rand / 100 % 10), Nat.digitChar (rand / 10 % 10),
       Nat.digitChar (rand % 10)] := by
    show (docNumber rand).data = _
    rw [docNumber, String.data_append]
    have : (toString rand).data = Nat.toDigitsCore 10 (rand + 1) rand [] := rfl
    rw [this, toDigitsCore_four rand h₁ h₂ (rand + 1) (Nat.lt_succ_self rand) []]
    rfl
  rw [isDocPlaceholder, hrepr]
  simp [digitChar_isDigit _ (Nat.mod_lt _ (by omega)),
    digitChar_isDigit (rand / 1000 % 10) (Nat.mod_lt _ (by omega)),
    digitChar_isDigit (rand / 100 % 10) (Nat.mod_lt _ (by omega)),
    digitChar_isDigit (rand / 10 % 10) (Nat.mod_lt _ (by omega))]

/-- C1 (amended): for every raw AI output string, the normalizer's result has
a truthy `vendor.name` (for strings, truthy = non-empty), a truthy
`invoice.number`, a truthy `invoice.date`, and an array `invoice.lineItems`;
missing or null (more precisely: falsy) required fields are coerced to the
defaults `"Unknown Vendor"`, `"DOC-"` plus 4 random digits, the current date,
`"USD"`, and the empty array. The original claim's guarantee that
`invoice.date` is always in valid `YYYY-MM-DD` form holds only for the
defaulted value: a truthy date supplied by the model passes through
unvalidated (see the counterexample). -/
theorem normalizer_defaults_amended (today : String) (rand : Nat)
    (response : String) (r : JsValue)
    (htoday : isValidDate today = true)
    (hrand₁ : 1000 ≤ rand) (hrand₂ : rand ≤ 9999)
    (hr : r = parseAIResponse today rand response) :
    truthy (getD2 r "vendor" "name") = true ∧
    truthy (getD2 r "invoice" "number") = true ∧
    truthy (getD2 r "invoice" "date") = true ∧
    isArray (getD2 r "invoice" "lineItems") = true ∧
    isDocPlaceholder (docNumber rand) = true ∧
    (∀ p, jsonParse (cleanAI response) = some p →
      (falsyOrNull (getD2 p "vendor" "name") = true →
        getD2 r "vendor" "name" = .str "Unknown Vendor") ∧
      (falsyOrNull (getD2 p "invoice" "number") = true →
        getD2 r "invoice" "number" = .str (docNumber rand)) ∧
      (falsyOrNull (getD2 p "invoice" "date") = true →
        getD2 r "invoice" "date" = .str today ∧ isValidDate today = true) ∧
      (truthy (getD2 p "invoice" "currency") = false →
        getD2 r "invoice" "currency" = .str "USD") ∧
      (isArray (getD2 p "invoice" "lineItems") = false →
        getD2 r "invoice" "lineItems" = .arr [] [])) ∧
    (jsonParse (cleanAI response) = none → r = defaultShell today rand) := by
  unfold parseAIResponse at hr
  cases htry : parseAIResponseTry today rand response with
  | error e =>
    rw [htry] at hr
    dsimp only at hr
    subst hr
    refine ⟨?_, ?_, ?_, rfl, docNumber_placeholder rand hrand₁ hrand₂,
      ?_, fun _ => rfl⟩
    · rfl
    · exact truthy_str_of_ne (docNumber_ne_empty rand)
    · exact truthy_str_of_ne (isValidDate_ne_empty htoday)
    · intro p _
      exact ⟨fun _ => rfl, fun _ => rfl, fun _ => ⟨rfl, htoday⟩,
        fun _ => rfl, fun _ => rfl⟩
  | ok w =>
    rw [htry] at hr
    dsimp only at hr
    subst hr
    obtain ⟨p₀, p₁, p₂, p₃, p₄, p₅, p₆, hj, h₁, h₂, h₃, h₄, h₅, h₆, h₇⟩ :=
      tryChain_ok htry
    -- frame facts: steps on section "invoice" leave section "vendor" alone
    have fv₄ : jsGetD p₄ "vendor" = jsGetD p₃ "vendor" :=
      defaultFieldIf_frame_sec h₄ (by decide)
    have fv₅ : jsGetD p₅ "vendor" = jsGetD p₄ "vendor" :=
      defaultFieldIf_frame_sec h₅ (by decide)
    have fv₆ : jsGetD p₆ "vendor" = jsGetD p₅ "vendor" :=
      defaultFieldIf_frame_sec h₆ (by decide)
    have fv₇ : jsGetD r "vendor" = jsGetD p₆ "vendor" :=
      defaultFieldIf_frame_sec h₇ (by decide)
    have hvname : getD2 r "vendor" "name" = getD2 p₃ "vendor" "name" := by
      rw [getD2, fv₇, fv₆, fv₅, fv₄]; rfl
    -- frame facts: later invoice fields leave earlier invoice fields alone
    have fn₅ : getD2 p₅ "invoice" "number" = getD2 p₄ "invoice" "number" :=
      defaultFieldIf_frame_fld h₅ (by decide)
    have fn₆ : getD2 p₆ "invoice" "number" = getD2 p₅ "invoice" "number" :=
      defaultFieldIf_frame_fld h₆ (by decide)
    have fn₇ : getD2 r "invoice" "number" = getD2 p₆ "invoice" "number" :=
      defaultFieldIf_frame_fld h₇ (by decide)
    have fd₆ : getD2 p₆ "invoice" "date" = getD2 p₅ "invoice" "date" :=
      defaultFieldIf_frame_fld h₆ (by decide)
    have fd₇ : getD2 r "invoice" "date" = getD2 p₅ "invoice" "date" := by
      rw [defaultFieldIf_frame_fld h₇ (by decide), fd₆]
    have fc₇ : getD2 r "invoice" "currency" = getD2 p₆ "invoice" "currency" :=
      defaultFieldIf_frame_fld h₇ (by decide)
    refine ⟨?_, ?_, ?_, ?_, docNumber_placeholder rand hrand₁ hrand₂, ?_, ?_⟩
    · -- vendor.name is truthy
      rw [hvname]
      exact falsyOrNull_false_truthy (defaultFieldIf_post h₃ (by decide))
    · -- invoice.number is truthy
      rw [fn₇, fn₆, fn₅]
      exact falsyOrNull_false_truthy
        (defaultFieldIf_post h₄ (falsyOrNull_docNumber rand))
    · -- invoice.date is truthy
      rw [fd₇]
      exact falsyOrNull_false_truthy
        (defaultFieldIf_post h₅ (falsyOrNull_validDate htoday))
    · -- invoice.lineItems is an array
      exact not_isArray_false (defaultFieldIf_post h₇ (by decide))
    · -- the defaulting clauses, against the parsed value
      intro p hp
      have hpp : p = p₀ := by
        rw [hp] at hj; exact Option.some.inj hj
      subst hpp
      refine ⟨?_, ?_, ?_, ?_, ?_⟩
      · intro hfn
        have s₁ : falsyOrNull (getD2 p₁ "vendor" "name") = true :=
          ensureObjField_cond_pres falsyOrNull h₁ (by decide) hfn
        have s₂ : getD2 p₂ "vendor" "name" = getD2 p₁ "vendor" "name" := by
          rw [getD2, ensureObjField_frame h₂ (by decide)]; rfl
        rw [hvname, defaultFieldIf_forced h₃ (by rw [s₂]; exact s₁)]
      · intro hfn
        have s₁ : getD2 p₁ "invoice" "number" = getD2 p "invoice" "number" := by
          rw [getD2, ensureObjField_frame h₁ (by decide)]; rfl
        have s₂ : falsyOrNull (getD2 p₂ "invoice" "number") = true :=
          ensureObjField_cond_pres falsyOrNull h₂ (by decide)
            (by rw [s₁]; exact hfn)
        have s₃ : getD2 p₃ "invoice" "number" = getD2 p₂ "invoice" "number" := by
          rw [getD2, defaultFieldIf_frame_sec h₃ (by decide)]; rfl
        rw [fn₇, fn₆, fn₅, defaultFieldIf_forced h₄ (by rw [s₃]; exact s₂)]
      · intro hfn
        have s₁ : getD2 p₁ "invoice" "date" = getD2 p "invoice" "date" := by
          rw [getD2, ensureObjField_frame h₁ (by decide)]; rfl
        have s₂ : falsyOrNull (getD2 p₂ "invoice" "date") = true :=
          ensureObjField_cond_pres falsyOrNull h₂ (by decide)
            (by rw [s₁]; exact hfn)
        have s₃ : getD2 p₃ "invoice" "date" = getD2 p₂ "invoice" "date" := by
          rw [getD2, defaultFieldIf_frame_sec h₃ (by decide)]; rfl
        have s₄ : getD2 p₄ "invoice" "date" = getD2 p₃ "invoice" "date" :=
          defaultFieldIf_frame_fld h₄ (by decide)
        refine ⟨?_, htoday⟩
        rw [fd₇, defaultFieldIf_forced h₅ (by rw [s₄, s₃]; exact s₂)]
      · intro hfc
        have hfc' : (fun x => !truthy x) (getD2 p "invoice" "currency") = true := by
          simp [hfc]
        have s₁ : getD2 p₁ "invoice" "currency" = getD2 p "invoice" "currency" := by
          rw [getD2, ensureObjField_frame h₁ (by decide)]; rfl
        have s₂ : (fun x => !truthy x) (getD2 p₂ "invoice" "currency") = true :=
          ensureObjField_cond_pres (fun x => !truthy x) h₂ (by decide)
            (by rw [s₁]; exact hfc')
        have s₃ : getD2 p₃ "invoice" "currency" = getD2 p₂ "invoice" "currency" := by
          rw [getD2, defaultFieldIf_frame_sec h₃ (by decide)]; rfl
        have s₄ : getD2 p₄ "invoice" "currency" = getD2 p₃ "invoice" "currency" :=
          defaultFieldIf_frame_fld h₄ (by decide)
        have s₅ : getD2 p₅ "invoice" "currency" = getD2 p₄ "invoice" "currency" :=
          defaultFieldIf_frame_fld h₅ (by decide)
        rw [fc₇, defaultFieldIf_forced h₆ (by rw [s₅, s₄, s₃]; exact s₂)]
      · intro hfa
        have hfa' : (fun x => !isArray x) (getD2 p "invoice" "lineItems") = true := by
          simp [hfa]
        have s₁ : getD2 p₁ "invoice" "lineItems" = getD2 p "invoice" "lineItems" := by
          rw [getD2, ensureObjField_frame h₁ (by decide)]; rfl
        have s₂ : (fun x => !isArray x) (getD2 p₂ "invoice" "lineItems") = true :=
          ensureObjField_cond_pres (fun x => !isArray x) h₂ (by decide)
            (by rw [s₁]; exact hfa')
        have s₃ : getD2 p₃ "invoice" "lineItems" = getD2 p₂ "invoice" "lineItems" := by
          rw [getD2, defaultFieldIf_frame_sec h₃ (by decide)]; rfl
        have s₄ : getD2 p₄ "invoice" "lineItems" = getD2 p₃ "invoice" "lineItems" :=
          defaultFieldIf_frame_fld h₄ (by decide)
        have s₅ : getD2 p₅ "invoice" "lineItems" = getD2 p₄ "invoice" "lineItems" :=
          defaultFieldIf_frame_fld h₅ (by decide)
        have s₆ : getD2 p₆ "invoice" "lineItems" = getD2 p₅ "invoice" "lineItems" :=
          defaultFieldIf_frame_fld h₆ (by decide)
        rw [defaultFieldIf_forced h₇ (by rw [s₆, s₅, s₄, s₃]; exact s₂)]
    · intro hnone
      rw [hnone] at hj
      cases hj

/-- C1 (counterexample): on the parseable AI output
`("invoice": ("date": "garbage"))` the normalizer leaves `invoice.date`
as the string `"garbage"`, which is not in valid `YYYY-MM-DD` form, although
`today` itself is a valid date and `rand` is in range. -/
theorem date_passthrough_cex :
    getD2 (parseAIResponse "2024-01-01" 1234
        "\x7b\"invoice\":\x7b\"date\":\"garbage\"\x7d\x7d") "invoice" "date" =
      .str "garbage" ∧
    isValidDate "garbage" = false ∧
    isValidDate "2024-01-01" = true ∧ 1000 ≤ 1234 ∧ 1234 ≤ 9999 :=
  ⟨rfl, rfl, rfl, by decide, by decide⟩

theorem normalizer_defaults_amended_witness :
    isValidDate "2024-01-01" = true ∧ 1000 ≤ 1234 ∧ 1234 ≤ 9999 ∧
    truthy (getD2 (parseAIResponse "2024-01-01" 1234 "not json")
      "vendor" "name") = true :=
  ⟨by decide, by decide, by decide,
    (normalizer_defaults_amended "2024-01-01" 1234 "not json" _
      (by decide) (by decide) (by decide) rfl).1⟩

/-- C2: the normalizer never propagates a parse error: on any input whose
cleaned text fails to parse, it returns the safe default structure, which —
up to the serialization-invisible `undefined`-valued properties the catch
branch writes — is exactly the result of running the step-4 defaulting on the
empty object `("")`; a well-formed minimal invoice. -/
theorem normalizer_parse_failure_shell (today : String) (rand : Nat)
    (response : String)
    (hfail : jsonParse (cleanAI response) = none) :
    stripUndefined (parseAIResponse today rand response) =
      parseAIResponse today rand "\x7b\x7d" ∧
    parseAIResponse today rand response = defaultShell today rand := by
  have hshell : parseAIResponse today rand response = defaultShell today rand := by
    unfold parseAIResponse parseAIResponseTry
    simp only [hfail, ebind_err]
  refine ⟨?_, hshell⟩
  rw [hshell]
  rfl

theorem normalizer_parse_failure_shell_witness :
    jsonParse (cleanAI "not json") = none ∧
    stripUndefined (parseAIResponse "2024-01-01" 1234 "not json") =
      parseAIResponse "2024-01-01" 1234 "\x7b\x7d" :=
  ⟨rfl, (normalizer_parse_failure_shell "2024-01-01" 1234 "not json" rfl).1⟩

/-- C8 (amended): the structure checks replace `vendor`/`invoice` with an
empty mapping only when the parsed field is falsy (absent, `null`, `false`,
`0` or `""`); a falsy field therefore ends up a mapping in the result. A
truthy value of the wrong type is NOT replaced: an array stays an array (the
counterexample), and a truthy primitive makes the subsequent strict-mode
property assignment throw, landing in the catch-all default shell (whose
`vendor`/`invoice` are mappings). -/
theorem ensure_mapping_amended (today : String) (rand : Nat)
    (response : String) (p : JsValue)
    (hp : jsonParse (cleanAI response) = some p) :
    (truthy (jsGetD p "vendor") = false →
      isObj (jsGetD (parseAIResponse today rand response) "vendor") = true) ∧
    (truthy (jsGetD p "invoice") = false →
      isObj (jsGetD (parseAIResponse today rand response) "invoice") = true) ∧
    isObjOrArr (jsGetD (parseAIResponse today rand response) "vendor") = true ∧
    isObjOrArr (jsGetD (parseAIResponse today rand response) "invoice") = true := by
  unfold parseAIResponse
  cases htry : parseAIResponseTry today rand response with
  | error e => exact ⟨fun _ => rfl, fun _ => rfl, rfl, rfl⟩
  | ok w =>
    obtain ⟨p₀, p₁, p₂, p₃, p₄, p₅, p₆, hj, h₁, h₂, h₃, h₄, h₅, h₆, h₇⟩ :=
      tryChain_ok htry
    have hpp : p = p₀ := by
      rw [hp] at hj; exact Option.some.inj hj
    subst hpp
    have hvfr : jsGetD w "vendor" = jsGetD p₃ "vendor" := by
      rw [defaultFieldIf_frame_sec h₇ (by decide),
        defaultFieldIf_frame_sec h₆ (by decide),
        defaultFieldIf_frame_sec h₅ (by decide),
        defaultFieldIf_frame_sec h₄ (by decide)]
    refine ⟨?_, ?_, ?_, defaultFieldIf_sec_objOrArr h₇ (by decide)⟩
    · intro hfv
      have e₁ : jsGetD p₁ "vendor" = .obj [] :=
        ensureObjField_falsy_to_obj h₁ hfv
      have e₂ : jsGetD p₂ "vendor" = .obj [] := by
        rw [ensureObjField_frame h₂ (by decide), e₁]
      have e₃ : isObj (jsGetD p₃ "vendor") = true := by
        rw [(defaultFieldIf_shape h₃).1, e₂]; rfl
      rw [hvfr]
      exact e₃
    · intro hfi
      have e₁ : jsGetD p₁ "invoice" = jsGetD p "invoice" :=
        ensureObjField_frame h₁ (by decide)
      have e₂ : jsGetD p₂ "invoice" = .obj [] :=
        ensureObjField_falsy_to_obj h₂ (by rw [e₁]; exact hfi)
      have e₃ : jsGetD p₃ "invoice" = .obj [] := by
        rw [defaultFieldIf_frame_sec h₃ (by decide), e₂]
      have e₄ : isObj (jsGetD w "invoice") = true := by
        rw [(defaultFieldIf_shape h₇).1, (defaultFieldIf_shape h₆).1,
          (defaultFieldIf_shape h₅).1, (defaultFieldIf_shape h₄).1, e₃]
        rfl
      exact e₄
    · rw [hvfr]
      exact defaultFieldIf_sec_objOrArr h₃ (by decide)

/-- C8 (counterexample): on the parseable output
`("vendor": [], "invoice": [])` both sub-objects are truthy arrays, so the
structure checks do not replace them; the returned `vendor` is still an array
(with the defaulted `name` attached as a property), not a mapping. -/
theorem ensure_mapping_cex :
    jsGetD (parseAIResponse "2024-01-01" 1234
        "\x7b\"vendor\":[],\"invoice\":[]\x7d") "vendor" =
      .arr [] [("name", .str "Unknown Vendor")] ∧
    isObj (JsValue.arr [] [("name", .str "Unknown Vendor")]) = false ∧
    isArray (jsGetD (parseAIResponse "2024-01-01" 1234
        "\x7b\"vendor\":[],\"invoice\":[]\x7d") "invoice") = true :=
  ⟨rfl, rfl, rfl⟩

theorem ensure_mapping_amended_witness :
    jsonParse (cleanAI "\x7b\"vendor\":\"\"\x7d") =
      some (.obj [("vendor", .str "")]) ∧
    isObj (jsGetD (parseAIResponse "2024-01-01" 1234 "\x7b\"vendor\":\"\"\x7d")
      "vendor") = true :=
  ⟨rfl,
    (ensure_mapping_amended "2024-01-01" 1234 "\x7b\"vendor\":\"\"\x7d"
      (.obj [("vendor", .str "")]) rfl).1 rfl⟩

/-- C10: the GridFS storage service resolves a `fileId` by dropping dashes,
truncating to the first 24 characters and padding with `'0'`; `download`,
`delete` and `getFileInfo` all derive the same `ObjectId` as `upload` stored
under, so any two `fileId` strings whose dash-stripped forms agree on their
first 24 characters address the same stored file — only those characters are
significant. -/
theorem gridfs_objectid_truncation (a b : String)
    (h : (removeDashes a).toList.take 24 = (removeDashes b).toList.take 24) :
    downloadOid a = downloadOid b ∧ deleteOid a = deleteOid b ∧
    getFileInfoOid a = getFileInfoOid b ∧
    uploadOid a = downloadOid a ∧ deleteOid a = downloadOid a ∧
    getFileInfoOid a = downloadOid a := by
  have hsub : jsSubstring24 (removeDashes a) = jsSubstring24 (removeDashes b) := by
    unfold jsSubstring24
    rw [h]
  refine ⟨?_, ?_, ?_, rfl, rfl, rfl⟩ <;>
    simp [downloadOid, deleteOid, getFileInfoOid, hsub]

theorem gridfs_objectid_truncation_witness :
    ("0123456789abcdef01234567-EXTRA1" : String) ≠
      "01234567-89abcdef01234567EXTRA2" ∧
    downloadOid "0123456789abcdef01234567-EXTRA1" =
      downloadOid "01234567-89abcdef01234567EXTRA2" :=
  ⟨by decide,
    (gridfs_objectid_truncation "0123456789abcdef01234567-EXTRA1"
      "01234567-89abcdef01234567EXTRA2" rfl).1⟩

/-- C9: a multipart upload whose file name (lower-cased) does not end in
`.pdf`, or whose mime type is not `application/pdf` — both checks are applied —
is answered `400` with a message referencing the allowed PDF type, and the
file is not stored. -/
theorem upload_reject_non_pdf (file : UploadedFile)
    (h : jsEndsWith (jsToLower file.originalname) ".pdf" = false ∨
      ¬file.mimetype = "application/pdf") :
    ∃ msg, uploadPipeline file = .rejected 400 msg ∧
      jsIncludes msg "PDF" = true ∧
      ∀ f, ¬uploadPipeline file = .stored f := by
  cases hext : jsEndsWith (jsToLower file.originalname) ".pdf" with
  | false =>
    refine ⟨"Only PDF files are allowed", ?_, by decide, ?_⟩
    · simp [uploadPipeline, fileFilter, hext]
      decide
    · intro f hc
      rw [show uploadPipeline file =
          .rejected 400 "Only PDF files are allowed" by
        simp [uploadPipeline, fileFilter, hext]; decide] at hc
      cases hc
  | true =>
    have hmime : ¬file.mimetype = "application/pdf" := by
      rcases h with h | h
      · rw [hext] at h; cases h
      · exact h
    refine ⟨"Invalid file type. Only PDF files are allowed", ?_, by decide, ?_⟩
    · simp [uploadPipeline, fileFilter, hext, hmime]
      decide
    · intro f hc
      rw [show uploadPipeline file =
          .rejected 400 "Invalid file type. Only PDF files are allowed" by
        simp [uploadPipeline, fileFilter, hext, hmime]; decide] at hc
      cases hc

theorem upload_reject_non_pdf_witness :
    jsEndsWith (jsToLower "test.txt") ".pdf" = false ∧
    ∃ msg,
      uploadPipeline
        { originalname := "test.txt", mimetype := "text/plain", size := 10 } =
          .rejected 400 msg ∧
      jsIncludes msg "PDF" = true ∧
      ∀ f, ¬uploadPipeline
        { originalname := "test.txt", mimetype := "text/plain", size := 10 } =
          .stored f :=
  ⟨by decide,
    upload_reject_non_pdf
      { originalname := "test.txt", mimetype := "text/plain", size := 10 }
      (Or.inl (by decide))⟩

/-- C7: a valid `POST /api/invoices` body is stored with a server-assigned
`createdAt` — any caller-supplied `createdAt` is ignored, two bodies differing
only there produce identical results — and the created invoice is returned
with status `201`, `createdAt` populated with the server time, and
`updatedAt` absent. -/
theorem create_timestamps (store : List Invoice) (freshId : String)
    (b : CreateBody) (now : String) (c' : Option String)
    (hfile : store.any (fun d => d.fileId == b.fileId) = false)
    (hid : store.any (fun d => d.id == freshId) = false) :
    ∃ inv, postInvoice store freshId b now = (.created inv, store ++ [inv]) ∧
      createStatus (postInvoice store freshId b now).1 = 201 ∧
      inv.createdAt = now ∧
      inv.updatedAt = none ∧
      postInvoice store freshId { b with callerCreatedAt := c' } now =
        postInvoice store freshId b now := by
  refine ⟨{ id := freshId, fileId := b.fileId, fileName := b.fileName,
            vendor := b.vendor, invoice := b.invoice,
            createdAt := now, updatedAt := none }, ?_, ?_, rfl, rfl, ?_⟩
  · rw [postInvoice, if_neg (by rw [hfile]; exact Bool.false_ne_true),
      if_neg (by rw [hid]; exact Bool.false_ne_true)]
  · rw [postInvoice, if_neg (by rw [hfile]; exact Bool.false_ne_true),
      if_neg (by rw [hid]; exact Bool.false_ne_true)]
    rfl
  · rfl

theorem create_timestamps_witness :
    ∃ inv,
      postInvoice [] "bbbbbbbbbbbbbbbbbbbbbbbb" acmeBody
        "2024-06-01T00:00:00.000Z" = (.created inv, [] ++ [inv]) ∧
      createStatus (postInvoice [] "bbbbbbbbbbbbbbbbbbbbbbbb" acmeBody
        "2024-06-01T00:00:00.000Z").1 = 201 ∧
      inv.createdAt = "2024-06-01T00:00:00.000Z" ∧
      inv.updatedAt = none ∧
      postInvoice [] "bbbbbbbbbbbbbbbbbbbbbbbb"
          { acmeBody with callerCreatedAt := none }
          "2024-06-01T00:00:00.000Z" =
        postInvoice [] "bbbbbbbbbbbbbbbbbbbbbbbb" acmeBody
          "2024-06-01T00:00:00.000Z" :=
  create_timestamps [] "bbbbbbbbbbbbbbbbbbbbbbbb" acmeBody
    "2024-06-01T00:00:00.000Z" none rfl rfl

/-- C3 (counterexample): updating an invoice whose vendor has an address with
the partial `(vendor: (name: "X"))` does not change only `vendor.name`:
Mongoose turns the update into a `$set` of the whole `vendor` key, so the
stored vendor is replaced wholly and its `address` is lost. -/
theorem update_vendor_replace_cex :
    (putInvoice [invAcme] "aaaaaaaaaaaaaaaaaaaaaaaa"
        { vendor := some { name := "X" } } "2024-02-02T00:00:00.000Z").1 =
      .ok { invAcme with
            vendor := { name := "X" }
            updatedAt := some "2024-02-02T00:00:00.000Z" } ∧
    invAcme.vendor.address = some "1 Main St" ∧
    ({ name := "X" } : Vendor).address = none :=
  ⟨rfl, rfl, rfl⟩

/-- C3 (amended): `PUT /api/invoices/:id` replaces each provided top-level
section wholly — a partial `(vendor: (name: "X"))` sets `vendor` to exactly
that object, resetting `vendor.address`/`vendor.taxId` — while top-level
sections omitted from the partial (`invoice`, `fileName`, `fileId`) are left
untouched, and `updatedAt` is set to the server time of the update, which is
strictly greater than the previous value whenever the clock has advanced. -/
theorem update_merge_amended (store : List Invoice) (doc : Invoice)
    (id : String) (b : UpdateBody) (now : String)
    (hid : isValidObjectIdStr id = true)
    (hfind : store.find? (fun d => d.id == id) = some doc)
    (hnoconf : store.any
      (fun d => !(d.id == id) && d.fileId == b.fileId.getD doc.fileId) = false) :
    ∃ inv', (putInvoice store id b now).1 = .ok inv' ∧
      (∀ v, b.vendor = some v → inv'.vendor = v) ∧
      (b.vendor = none → inv'.vendor = doc.vendor) ∧
      (b.invoice = none → inv'.invoice = doc.invoice) ∧
      (b.fileName = none → inv'.fileName = doc.fileName) ∧
      (b.fileId = none → inv'.fileId = doc.fileId) ∧
      inv'.updatedAt = some now ∧
      (∀ prev, doc.updatedAt = some prev → prev < now →
        ∃ cur, inv'.updatedAt = some cur ∧ prev < cur) := by
  have h₁ : (!isValidObjectIdStr id) = false := by rw [hid]; rfl
  have h₂ : store.any
      (fun d => !(d.id == id) && d.fileId == (applyUpdate doc b now).fileId) =
      false := hnoconf
  refine ⟨applyUpdate doc b now, ?_, ?_, ?_, ?_, ?_, ?_, rfl, ?_⟩
  · rw [putInvoice, h₁]
    simp only [Bool.false_eq_true, if_false, hfind]
    rw [if_neg (by rw [h₂]; exact Bool.false_ne_true)]
  · intro v hv
    show b.vendor.getD doc.vendor = v
    rw [hv]; rfl
  · intro hv
    show b.vendor.getD doc.vendor = doc.vendor
    rw [hv]; rfl
  · intro hv
    show b.invoice.getD doc.invoice = doc.invoice
    rw [hv]; rfl
  · intro hv
    show b.fileName.getD doc.fileName = doc.fileName
    rw [hv]; rfl
  · intro hv
    show b.fileId.getD doc.fileId = doc.fileId
    rw [hv]; rfl
  · intro prev _ hlt
    exact ⟨now, rfl, hlt⟩

theorem update_merge_amended_witness :
    ∃ inv', (putInvoice [invAcme] "aaaaaaaaaaaaaaaaaaaaaaaa"
        { vendor := some { name := "X" } } "2024-02-02T00:00:00.000Z").1 =
        .ok inv' ∧
      (∀ v, ({ vendor := some { name := "X" } } : UpdateBody).vendor = some v →
        inv'.vendor = v) ∧
      (({ vendor := some { name := "X" } } : UpdateBody).vendor = none →
        inv'.vendor = invAcme.vendor) ∧
      (({ vendor := some { name := "X" } } : UpdateBody).invoice = none →
        inv'.invoice = invAcme.invoice) ∧
      (({ vendor := some { name := "X" } } : UpdateBody).fileName = none →
        inv'.fileName = invAcme.fileName) ∧
      (({ vendor := some { name := "X" } } : UpdateBody).fileId = none →
        inv'.fileId = invAcme.fileId) ∧
      inv'.updatedAt = some "2024-02-02T00:00:00.000Z" ∧
      (∀ prev, invAcme.updatedAt = some prev →
        prev < "2024-02-02T00:00:00.000Z" →
        ∃ cur, inv'.updatedAt = some cur ∧ prev < cur) :=
  update_merge_amended [invAcme] invAcme "aaaaaaaaaaaaaaaaaaaaaaaa"
    { vendor := some { name := "X" } } "2024-02-02T00:00:00.000Z"
    rfl rfl rfl

/-! The uniqueness invariant: every reachable collection state has pairwise
distinct `_id`s and pairwise distinct `fileId`s. -/

theorem mem_updateFirst {id : String} {new e : Invoice} {l : List Invoice}
    (h : e ∈ updateFirst id new l) : e = new ∨ e ∈ l := by
  induction l with
  | nil => simp [updateFirst] at h
  | cons d rest ih =>
    unfold updateFirst at h
    by_cases hd : d.id == id
    · rw [if_pos hd] at h
      rcases List.mem_cons.mp h with h | h
      · exact Or.inl h
      · exact Or.inr (List.mem_cons_of_mem d h)
    · rw [if_neg hd] at h
      rcases List.mem_cons.mp h with h | h
      · exact Or.inr (h ▸ List.mem_cons_self d rest)
      · rcases ih h with h | h
        · exact Or.inl h
        · exact Or.inr (List.mem_cons_of_mem d h)

theorem updateFirst_pairwise {id : String} {new : Invoice}
    (hnew : new.id = id) (l : List Invoice)
    (hp : l.Pairwise (fun a b => ¬a.id = b.id ∧ ¬a.fileId = b.fileId))
    (hother : ∀ d ∈ l, ¬d.id = id → ¬d.fileId = new.fileId) :
    (updateFirst id new l).Pairwise
      (fun a b => ¬a.id = b.id ∧ ¬a.fileId = b.fileId) := by
  induction l with
  | nil => exact List.Pairwise.nil
  | cons d rest ih =>
    rcases List.pairwise_cons.mp hp with ⟨hd_all, hrest⟩
    unfold updateFirst
    by_cases hdid : d.id == id
    · rw [if_pos hdid]
      have hdid' : d.id = id := by simpa using hdid
      refine List.pairwise_cons.mpr ⟨?_, hrest⟩
      intro e he
      have hde := hd_all e he
      refine ⟨by rw [hnew, ← hdid']; exact hde.1, ?_⟩
      have heid : ¬e.id = id := by
        intro hh
        exact hde.1 (by rw [hdid', hh])
      intro hh
      exact hother e (List.mem_cons_of_mem d he) heid hh.symm
    · rw [if_neg hdid]
      have hdid' : ¬d.id = id := by simpa using hdid
      refine List.pairwise_cons.mpr ⟨?_, ?_⟩
      · intro e he
        rcases mem_updateFirst he with rfl | he'
        · exact ⟨by rw [hnew]; exact hdid',
            hother d (List.mem_cons_self d rest) hdid'⟩
        · exact hd_all e he'
      · exact ih hrest
          (fun e he hne => hother e (List.mem_cons_of_mem d he) hne)

theorem applyOp_pairwise (s : List Invoice) (op : StoreOp)
    (hp : s.Pairwise (fun a b => ¬a.id = b.id ∧ ¬a.fileId = b.fileId)) :
    (applyOp s op).Pairwise
      (fun a b => ¬a.id = b.id ∧ ¬a.fileId = b.fileId) := by
  cases op with
  | create freshId b now =>
    show ((postInvoice s freshId b now).2).Pairwise _
    unfold postInvoice
    by_cases h₁ : s.any (fun d => d.fileId == b.fileId)
    · rw [if_pos h₁]; exact hp
    · rw [if_neg h₁]
      by_cases h₂ : s.any (fun d => d.id == freshId)
      · rw [if_pos h₂]; exact hp
      · rw [if_neg h₂]
        have h₁' : ∀ d ∈ s, ¬d.fileId = b.fileId := by
          intro d hd hde
          exact h₁ (List.any_eq_true.mpr ⟨d, hd, by simp [hde]⟩)
        have h₂' : ∀ d ∈ s, ¬d.id = freshId := by
          intro d hd hde
          exact h₂ (List.any_eq_true.mpr ⟨d, hd, by simp [hde]⟩)
        refine List.pairwise_append.mpr ⟨hp, by simp, ?_⟩
        intro a ha b' hb'
        rcases List.mem_singleton.mp hb' with rfl
        exact ⟨h₂' a ha, h₁' a ha⟩
  | update id b now =>
    show ((putInvoice s id b now).2).Pairwise _
    unfold putInvoice
    by_cases hv : (!isValidObjectIdStr id) = true
    · rw [if_pos hv]; exact hp
    · rw [if_neg hv]
      cases hfind : s.find? (fun d => d.id == id) with
      | none => exact hp
      | some doc =>
        dsimp only
        by_cases hc : s.any
            (fun d => !(d.id == id) && d.fileId == (applyUpdate doc b now).fileId)
        · rw [if_pos hc]; exact hp
        · rw [if_neg hc]
          refine updateFirst_pairwise (show (applyUpdate doc b now).id = id from ?_)
            s hp ?_
          · have := List.find?_some hfind
            simpa [applyUpdate] using this
          · intro d hd hne hfe
            refine hc (List.any_eq_true.mpr ⟨d, hd, ?_⟩)
            simp [hne, hfe]
  | delete id =>
    show ((deleteInvoice s id).2).Pairwise _
    unfold deleteInvoice
    by_cases hv : (!isValidObjectIdStr id) = true
    · rw [if_pos hv]; exact hp
    · rw [if_neg hv]
      cases hfind : s.find? (fun d => d.id == id) with
      | none => exact hp
      | some doc => exact hp.sublist (List.eraseP_sublist s)

theorem reachable_pairwise (s : List Invoice) (h : Reachable s) :
    s.Pairwise (fun a b => ¬a.id = b.id ∧ ¬a.fileId = b.fileId) := by
  induction h with
  | nil => exact List.Pairwise.nil
  | step op _ ih => exact applyOp_pairwise _ op ih

/-- C5: a second create with an already-stored `fileId` answers `409 Conflict`
and leaves the collection unchanged; and over all collection states reachable
through the write routes, no two stored invoices ever share a `fileId`. -/
theorem create_unique_fileId :
    (∀ (store : List Invoice) (id₁ id₂ : String) (b₁ b₂ : CreateBody)
        (now₁ now₂ : String) (inv : Invoice) (s₁ : List Invoice),
      b₂.fileId = b₁.fileId →
      postInvoice store id₁ b₁ now₁ = (.created inv, s₁) →
      postInvoice s₁ id₂ b₂ now₂ = (.conflict, s₁) ∧
        createStatus (postInvoice s₁ id₂ b₂ now₂).1 = 409) ∧
    (∀ s, Reachable s → s.Pairwise (fun a b => ¬a.fileId = b.fileId)) := by
  constructor
  · intro store id₁ id₂ b₁ b₂ now₁ now₂ inv s₁ hfid h
    unfold postInvoice at h
    by_cases h₁ : store.any (fun d => d.fileId == b₁.fileId)
    · rw [if_pos h₁] at h
      simp at h
    · rw [if_neg h₁] at h
      by_cases h₂ : store.any (fun d => d.id == id₁)
      · rw [if_pos h₂] at h
        simp at h
      · rw [if_neg h₂] at h
        have hs₁ : s₁ = store ++
            [{ id := id₁, fileId := b₁.fileId, fileName := b₁.fileName,
               vendor := b₁.vendor, invoice := b₁.invoice,
               createdAt := now₁, updatedAt := none }] := by
          have := congrArg Prod.snd h
          exact this.symm
        have hmem : s₁.any (fun d => d.fileId == b₂.fileId) = true := by
          rw [hs₁, hfid]
          refine List.any_eq_true.mpr ⟨_, List.mem_append_right store
            (List.mem_singleton.mpr rfl), by simp⟩
        constructor
        · rw [postInvoice, if_pos hmem]
        · rw [postInvoice, if_pos hmem]
          rfl
  · intro s hs
    exact (reachable_pairwise s hs).imp (fun h => h.2)

theorem create_unique_fileId_witness :
    (postInvoice [acmeStored] "dddddddddddddddddddddddd" acmeBody "t2" =
      (.conflict, [acmeStored]) ∧
      createStatus (postInvoice [acmeStored] "dddddddddddddddddddddddd"
        acmeBody "t2").1 = 409) ∧
    List.Pairwise (fun a b => ¬a.fileId = b.fileId)
      (applyOp [] (.create "bbbbbbbbbbbbbbbbbbbbbbbb" acmeBody "t1")) :=
  ⟨by
    have := (create_unique_fileId.1 [] "bbbbbbbbbbbbbbbbbbbbbbbb"
      "dddddddddddddddddddddddd" acmeBody acmeBody "t1" "t2"
      acmeStored [acmeStored] rfl rfl)
    simpa using this,
    create_unique_fileId.2 _
      (Reachable.step (.create "bbbbbbbbbbbbbbbbbbbbbbbb" acmeBody "t1")
        Reachable.nil)⟩

/-! The search lemmas: the unescaped-regex filter coincides with the spec's
case-insensitive substring predicate exactly on metacharacter-free queries,
and sorting permutes. -/

theorem strHasPfx_iff (n h : List Char) :
    strHasPfx n h = true ↔ ∃ t, h = n ++ t := by
  induction n generalizing h with
  | nil => simp [strHasPfx]
  | cons a as ih =>
    cases h with
    | nil => simp [strHasPfx]
    | cons b bs =>
      simp only [strHasPfx, Bool.and_eq_true, beq_iff_eq, ih,
        List.cons_append, List.cons.injEq]
      constructor
      · rintro ⟨rfl, t, rfl⟩
        exact ⟨t, rfl, rfl⟩
      · rintro ⟨t, rfl, rfl⟩
        exact ⟨rfl, t, rfl⟩

theorem strHasSub_iff (n h : List Char) :
    strHasSub n h = true ↔ ∃ pre post, h = pre ++ n ++ post := by
  induction h with
  | nil =>
    simp only [strHasSub, strHasPfx_iff]
    constructor
    · rintro ⟨t, ht⟩
      exact ⟨[], t, by simpa using ht⟩
    · rintro ⟨pre, post, hp⟩
      have h₃ : pre = [] ∧ n = [] ∧ post = [] := by simpa using hp.symm
      exact ⟨[], by simp [h₃.1, h₃.2.1, h₃.2.2]⟩
  | cons b bs ih =>
    simp only [strHasSub, Bool.or_eq_true, strHasPfx_iff, ih]
    constructor
    · rintro (⟨t, ht⟩ | ⟨pre, post, hp⟩)
      · exact ⟨[], t, by simpa using ht⟩
      · exact ⟨b :: pre, post, by simp [hp]⟩
    · rintro ⟨pre, post, hp⟩
      cases pre with
      | nil => exact Or.inl ⟨post, by simpa using hp⟩
      | cons c pre' =>
        right
        rcases List.cons.injEq .. ▸ hp with ⟨rfl, htail⟩
        exact ⟨pre', post, by simpa using hp⟩

theorem isLiteralPattern_no_dot {s : String} (h : isLiteralPattern s = true) :
    ∀ c ∈ s.toList, ¬c = '.' := by
  intro c hc hdot
  subst hdot
  have := List.all_eq_true.mp h _ hc
  exact absurd this (by decide)

theorem matchAt_literal {pat : List Char} (hp : ∀ c ∈ pat, ¬c = '.') :
    ∀ txt, matchAt pat txt =
      strHasPfx (pat.map Char.toLower) (txt.map Char.toLower) := by
  induction pat with
  | nil => intro txt; rfl
  | cons p ps ih =>
    intro txt
    cases txt with
    | nil => rfl
    | cons t ts =>
      have hpd : ¬p = '.' := hp p (List.mem_cons_self p ps)
      have hc : (p == '.') = false := by simpa using hpd
      simp only [matchAt, List.map_cons, strHasPfx, regexCharMatches, hc,
        Bool.false_eq_true, if_false,
        ih (fun c hc' => hp c (List.mem_cons_of_mem p hc')) ts]

theorem regexTest_literal {pat : List Char} (hp : ∀ c ∈ pat, ¬c = '.') :
    ∀ txt, regexTest pat txt =
      strHasSub (pat.map Char.toLower) (txt.map Char.toLower) := by
  intro txt
  induction txt with
  | nil =>
    show matchAt pat [] = strHasSub (pat.map Char.toLower) []
    rw [matchAt_literal hp []]
    rfl
  | cons t ts ih =>
    show (matchAt pat (t :: ts) || regexTest pat ts) = _
    rw [matchAt_literal hp (t :: ts), ih]
    rfl

theorem invoiceMatches_eq_specMatches {q : String}
    (hlit : isLiteralPattern q = true) (inv : Invoice) :
    invoiceMatches q inv = specMatches q inv := by
  unfold invoiceMatches specMatches regexTestStr
  rw [regexTest_literal (isLiteralPattern_no_dot hlit),
    regexTest_literal (isLiteralPattern_no_dot hlit)]

theorem insertSorted_perm (le : Invoice → Invoice → Bool) (a : Invoice)
    (l : List Invoice) : List.Perm (insertSorted le a l) (a :: l) := by
  induction l with
  | nil => exact List.Perm.refl _
  | cons b rest ih =>
    unfold insertSorted
    by_cases hle : le a b
    · rw [if_pos hle]
    · rw [if_neg hle]
      exact (ih.cons b).trans (List.Perm.swap a b rest)

theorem sortInvoices_perm (sortBy sortOrder : String) (l : List Invoice) :
    List.Perm (sortInvoices sortBy sortOrder l) l := by
  induction l with
  | nil => exact List.Perm.refl _
  | cons a rest ih =>
    exact (insertSorted_perm _ a _).trans (ih.cons a)

theorem mem_getInvoices_data {store : List Invoice} {p : SearchParams}
    {inv : Invoice} (h : inv ∈ (getInvoices store p).data) :
    inv ∈ filterByQuery p.q store := by
  have h₁ : inv ∈ sortInvoices p.sortBy p.sortOrder (filterByQuery p.q store) :=
    List.drop_subset _ _ (List.take_subset _ _ h)
  exact (sortInvoices_perm p.sortBy p.sortOrder _).mem_iff.mp h₁

theorem jsCeilDiv_bounds (a b : Nat) (hb : 1 ≤ b) :
    a ≤ jsCeilDiv a b * b ∧ jsCeilDiv a b * b < a + b := by
  unfold jsCeilDiv
  have h₁ : (a + b - 1) / b * b ≤ a + b - 1 := Nat.div_mul_le_self _ _
  have h₂ : a + b - 1 < ((a + b - 1) / b + 1) * b :=
    (Nat.div_lt_iff_lt_mul (by omega)).mp (Nat.lt_succ_self _)
  rw [Nat.succ_mul] at h₂
  generalize hqb : (a + b - 1) / b * b = t at h₁ h₂ ⊢
  omega

/-- C6: the `total` a search returns is the full count of invoices matching
the same filter used to produce the page — it does not depend on `page` or
`limit` — every returned document satisfies that same filter (no drift
between count query and page query), and `pages` is the ceiling of
`total / limit`. -/
theorem pagination_consistency (store : List Invoice) (p p' : SearchParams)
    (hq : p'.q = p.q) (hl : 1 ≤ p.limit) :
    (getInvoices store p).total = (getInvoices store p').total ∧
    (getInvoices store p).total = (filterByQuery p.q store).length ∧
    (∀ inv ∈ (getInvoices store p).data, inv ∈ filterByQuery p.q store) ∧
    (getInvoices store p).total ≤ (getInvoices store p).pages * p.limit ∧
    (getInvoices store p).pages * p.limit <
      (getInvoices store p).total + p.limit := by
  refine ⟨?_, rfl, fun inv h => mem_getInvoices_data h, ?_, ?_⟩
  · show (filterByQuery p.q store).length = (filterByQuery p'.q store).length
    rw [hq]
  · exact (jsCeilDiv_bounds (filterByQuery p.q store).length p.limit hl).1
  · exact (jsCeilDiv_bounds (filterByQuery p.q store).length p.limit hl).2

theorem pagination_consistency_witness :
    (getInvoices [invAbc] { q := some "zz" }).total =
      (getInvoices [invAbc] { q := some "zz", page := 2, limit := 3 }).total ∧
    (getInvoices [invAbc] { q := some "zz" }).total =
      (filterByQuery (some "zz") [invAbc]).length ∧
    (∀ inv ∈ (getInvoices [invAbc] { q := some "zz" }).data,
      inv ∈ filterByQuery (some "zz") [invAbc]) ∧
    (getInvoices [invAbc] { q := some "zz" }).total ≤
      (getInvoices [invAbc] { q := some "zz" }).pages * 10 ∧
    (getInvoices [invAbc] { q := some "zz" }).pages * 10 <
      (getInvoices [invAbc] { q := some "zz" }).total + 10 :=
  pagination_consistency [invAbc] { q := some "zz" }
    { q := some "zz", page := 2, limit := 3 } rfl (by decide)

/-- C4 (amended): the trimmed query is used, unescaped, as a case-insensitive
regular-expression pattern against `vendor.name` OR `invoice.number`. For
queries free of regex metacharacters this coincides with the claimed
case-insensitive substring semantics, and the returned page is exactly the
requested slice of the sorted set of substring-matching invoices; a query
containing metacharacters is interpreted as a regex instead (see the
counterexample). -/
theorem search_substring_amended (store : List Invoice) (p : SearchParams)
    (s : String) (hq : p.q = some s)
    (hs : (!(s == "") && !(jsTrimStr s == "")) = true)
    (hlit : isLiteralPattern (jsTrimStr s) = true) :
    (∀ inv ∈ (getInvoices store p).data,
      SubstrCI (jsTrimStr s) inv.vendor.name ∨
      SubstrCI (jsTrimStr s) inv.invoice.number) ∧
    (getInvoices store p).data =
      ((sortInvoices p.sortBy p.sortOrder
          (store.filter (specMatches (jsTrimStr s)))).drop
        ((p.page - 1) * p.limit)).take p.limit := by
  have hpat : queryPattern p.q = some (jsTrimStr s) := by
    rw [hq]
    show (if (!(s == "") && !(jsTrimStr s == "")) = true
          then some (jsTrimStr s) else none) = some (jsTrimStr s)
    rw [if_pos hs]
  have hfilter : filterByQuery p.q store =
      store.filter (specMatches (jsTrimStr s)) := by
    unfold filterByQuery
    rw [hpat]
    exact List.filter_congr
      (fun inv _ => invoiceMatches_eq_specMatches hlit inv)
  constructor
  · intro inv hmem
    have h₁ : inv ∈ filterByQuery p.q store := mem_getInvoices_data hmem
    rw [hfilter] at h₁
    have h₂ : specMatches (jsTrimStr s) inv = true := List.of_mem_filter h₁
    unfold specMatches at h₂
    rcases Bool.or_eq_true .. ▸ h₂ with h₃ | h₃
    · exact Or.inl ((strHasSub_iff _ _).mp h₃)
    · exact Or.inr ((strHasSub_iff _ _).mp h₃)
  · show ((sortInvoices p.sortBy p.sortOrder (filterByQuery p.q store)).drop
        ((p.page - 1) * p.limit)).take p.limit = _
    rw [hfilter]

/-- C4 (counterexample): with the stored invoice whose vendor name is `"abc"`
and invoice number `"zzz"`, the query `"a.c"` returns that invoice — the dot
is a regex wildcard — although `"a.c"` is a case-insensitive substring of
neither `vendor.name` nor `invoice.number`, so the result is not the claimed
substring-match set. -/
theorem search_regex_not_substring_cex :
    (getInvoices [invAbc] { q := some "a.c" }).data = [invAbc] ∧
    ¬SubstrCI "a.c" invAbc.vendor.name ∧
    ¬SubstrCI "a.c" invAbc.invoice.number := by
  refine ⟨rfl, ?_, ?_⟩
  · intro h
    have hb := (strHasSub_iff ("a.c".toList.map Char.toLower)
      (invAbc.vendor.name.toList.map Char.toLower)).mpr h
    exact absurd hb (by decide)
  · intro h
    have hb := (strHasSub_iff ("a.c".toList.map Char.toLower)
      (invAbc.invoice.number.toList.map Char.toLower)).mpr h
    exact absurd hb (by decide)

theorem search_substring_amended_witness :
    (∀ inv ∈ (getInvoices [invAbc] { q := some "AB" }).data,
      SubstrCI (jsTrimStr "AB") inv.vendor.name ∨
      SubstrCI (jsTrimStr "AB") inv.invoice.number) ∧
    (getInvoices [invAbc] { q := some "AB" }).data =
      ((sortInvoices "createdAt" "desc"
          ([invAbc].filter (specMatches (jsTrimStr "AB")))).drop
        ((1 - 1) * 10)).take 10 :=
  search_substring_amended [invAbc] { q := some "AB" } "AB"
    rfl (by decide) (by decide)

end PdfDashboard
